import Mathlib

/-!
# Verification of the web-analyzer semantic matching core

A shallow embedding, in Lean 4, of the semantic matching and ranking core of
the web-analyzer service:

* the knowledge store (`src/core/knowledge_db/knowledge_database.py`):
  `add_content`, `remove_content`, `get_database_stats`,
  `get_all_content_with_embeddings`, `find_related_content_semantic`,
  and the eviction helpers `_check_cleanup_needed` / `_perform_cleanup`;
* the enhanced analyzer (`src/core/enhanced_analyzer.py`):
  `_split_into_paragraphs` and the suggestion loop of `analyze_content`;
* the lexical topic extraction (`src/core/analyzer.py`): `_extract_topics`;
* the anchor-text generator (`src/core/analyzers/anchor_text_generator.py`):
  `_score_anchor_candidates` and `_filter_anchor_candidates`;
* the bulk processor (`src/core/bulk_processor.py`): `_process_single_item`.

Python strings are modelled as `List Char` (`PyStr`), with the Python string
primitives (strip, lower, split, substring test) defined structurally so that
every definition evaluates on concrete inputs.  Python floats are modelled as
exact rationals `ℚ`.  External black boxes — the sentence-transformer
`embed`, pickle (de)serialisation, cosine similarity over numpy floats, the
MD5 digest, NLTK tokenisation, and Python's float `round` — enter as explicit
function parameters: the claims under verification do not depend on their
values, only on how the code around them uses their results.

SQLite tables are modelled as in-memory lists of typed rows; `datetime.now()`
timestamps are modelled as a `Nat` parameter `now` supplied per call.
-/

namespace WebAnalyzer

/-! ## Python string primitives over `List Char` -/

/-- Python strings, modelled as lists of characters. -/
abbrev PyStr := List Char

/-- The characters Python's `str.strip()` removes (ASCII whitespace). -/
def pyIsSpace (c : Char) : Bool :=
  c == ' ' || c == '\t' || c == '\n' || c == '\x0d' || c == '\x0b' || c == '\x0c'

/-- Python `str.strip()`: drop leading and trailing whitespace. -/
def pyStrip (s : PyStr) : PyStr :=
  ((s.dropWhile pyIsSpace).reverse.dropWhile pyIsSpace).reverse

/-- Python `str.lower()` (ASCII case folding; the repository's inputs are ASCII). -/
def pyLower (s : PyStr) : PyStr :=
  s.map Char.toLower

/-- Python `needle in hay` (contiguous substring test; `"" in s` is `True`). -/
def pyContains (hay needle : PyStr) : Bool :=
  needle.isEmpty || hay.tails.any (fun t => needle.isPrefixOf t)

/-- Python `str.split()` with no argument: split on whitespace runs, dropping
empty fragments. -/
def pySplit (s : PyStr) : List PyStr :=
  (List.splitOnP pyIsSpace s).filter (fun w => !w.isEmpty)

/-- Fuel-driven worker for `pySplitOn` (structural recursion on the fuel, so
that the definition evaluates by kernel reduction; the fuel is the length of
the string being split, which suffices because each step consumes at least
one character). -/
def pySplitOnFuel (sep : PyStr) : Nat → PyStr → List PyStr
  | _, [] => [[]]
  | 0, s => [s]
  | fuel + 1, c :: rest =>
    if !sep.isEmpty && sep.isPrefixOf (c :: rest) then
      [] :: pySplitOnFuel sep fuel ((c :: rest).drop sep.length)
    else
      match pySplitOnFuel sep fuel rest with
      | [] => [[c]]
      | h :: t => (c :: h) :: t

/-- Splitting on a non-empty separator, leftmost-first and non-overlapping.
This is the behaviour of Python's `re.split(r'\n\n|\n{2,}', s)` for
`sep = "\n\n"`: because regex alternation is ordered and `\n\n` matches at
every position where `\n{2,}` does, the pattern always consumes exactly two
newlines, so the regex split coincides with splitting on the literal
`"\n\n"`. -/
def pySplitOn (sep s : PyStr) : List PyStr :=
  pySplitOnFuel sep s.length s

/-! ## Knowledge store: data model

`_init_database` creates three tables: `content` (unique `content_id`, title,
url, hash, embedding BLOB, timestamps), `entities` and `topics` (children
keyed by `content_id`).  Rows are modelled as structures and each table as a
list of rows in insertion order.  The embedding column holds serialised bytes
(`pickle.dumps` output), modelled as `Option EmbBytes` where `none` is SQL
`NULL`. -/

/-- Serialised embedding blob (the `pickle.dumps` byte string). -/
abbrev EmbBytes := List Nat

/-- A deserialised embedding vector (numpy float array, modelled over `ℚ`). -/
abbrev Emb := List ℚ

/-- A row of the `content` table. -/
structure ContentRow where
  content_id : PyStr
  title : PyStr
  url : PyStr
  hash : PyStr
  embedding : Option EmbBytes
  created_at : Nat
  updated_at : Nat
deriving DecidableEq, Repr

/-- A row of the `entities` table. -/
structure EntityRow where
  content_id : PyStr
  entity_type : PyStr
  entity_value : PyStr
  confidence : ℚ
deriving DecidableEq, Repr

/-- A row of the `topics` table. -/
structure TopicRow where
  content_id : PyStr
  topic_type : PyStr
  topic_value : PyStr
  weight : ℚ
deriving DecidableEq, Repr

/-- The state of one site's knowledge database. -/
structure DBState where
  content : List ContentRow
  entities : List EntityRow
  topics : List TopicRow
deriving DecidableEq, Repr

/-- The configuration fields `KnowledgeDatabase` reads (`max_entries`,
`cleanup_threshold`, `embedding_text_field`), with the defaults of
`_load_config`. -/
structure DBConfig where
  max_entries : Nat := 10000
  cleanup_threshold : ℚ := 0.9
  embedding_text_field : PyStr := "title".data
deriving DecidableEq, Repr

/-- Python `int(q)` for a rational: truncation toward zero (the denominator of
a `ℚ` is positive, and `Int.div` is T-division). -/
def pyInt (q : ℚ) : Int :=
  Int.tdiv q.num q.den

/-- `int(max_entries * cleanup_threshold)` from `_check_cleanup_needed`. -/
def thresholdCount (cfg : DBConfig) : Int :=
  pyInt ((cfg.max_entries : ℚ) * cfg.cleanup_threshold)

/-- `int(max_entries * 0.8)` from `_perform_cleanup`. -/
def targetCount (cfg : DBConfig) : Int :=
  pyInt ((cfg.max_entries : ℚ) * 0.8)

/-- `_perform_cleanup`: remove the `content_count - int(max_entries*0.8)`
oldest rows (by `updated_at`, ascending; ties in table order, the plan SQLite
uses here) together with their entity/topic children.  No-op when the
difference is not positive. -/
def _perform_cleanup (cfg : DBConfig) (st : DBState) : DBState :=
  let content_count : Int := st.content.length
  let to_remove : Int := content_count - targetCount cfg
  if to_remove ≤ 0 then st
  else
    let ids := ((st.content.mergeSort (fun a b => a.updated_at ≤ b.updated_at)).take
      to_remove.toNat).map (fun r => r.content_id)
    { content := st.content.filter (fun r => !ids.contains r.content_id),
      entities := st.entities.filter (fun r => !ids.contains r.content_id),
      topics := st.topics.filter (fun r => !ids.contains r.content_id) }

/-- `_check_cleanup_needed`: run `_perform_cleanup` when the content count
exceeds `int(max_entries * cleanup_threshold)`. -/
def _check_cleanup_needed (cfg : DBConfig) (st : DBState) : DBState :=
  if thresholdCount cfg < (st.content.length : Int) then _perform_cleanup cfg st else st

/-! ## Knowledge store: `add_content` -/

/-- The `entities`/`topics` values of a `content_data` dictionary: a map from
type to a list of `(value, weight-or-confidence)` pairs.  (The code also
accepts bare strings in the lists, supplying weight/confidence `1.0`; those
are modelled as pairs with second component `1`.) -/
abbrev ChildMap := List (PyStr × List (PyStr × ℚ))

/-- The `content_data` dictionary passed to `add_content`. `entities = none`
models the key being absent (the code's `"entities" in content_data` /
`content_data.get("entities") is not None` checks). -/
structure ContentData where
  id : PyStr
  title : PyStr
  url : PyStr
  content : PyStr
  entities : Option ChildMap
  topics : Option ChildMap
deriving DecidableEq, Repr

/-- The data `_generate_content_hash` digests: title, entities and topics,
with the dictionary defaults `{}` for absent keys. -/
structure HashInput where
  title : PyStr
  entities : ChildMap
  topics : ChildMap
deriving DecidableEq, Repr

/-- `_generate_content_hash`'s input for a given `content_data`. The MD5
digest itself is an external function parameter (`hashFn`) below: the claims
depend only on the digest being a deterministic function of this input. -/
def hashInputOf (cd : ContentData) : HashInput :=
  { title := cd.title, entities := cd.entities.getD [], topics := cd.topics.getD [] }

/-- The entity child rows `add_content` inserts for `content_data` (empty when
the `entities` key is absent). -/
def entityRowsOf (cd : ContentData) : List EntityRow :=
  match cd.entities with
  | none => []
  | some es => es.flatMap (fun p => p.2.map (fun v =>
      { content_id := cd.id, entity_type := p.1, entity_value := v.1, confidence := v.2 }))

/-- The topic child rows `add_content` inserts for `content_data`. -/
def topicRowsOf (cd : ContentData) : List TopicRow :=
  match cd.topics with
  | none => []
  | some ts => ts.flatMap (fun p => p.2.map (fun v =>
      { content_id := cd.id, topic_type := p.1, topic_value := v.1, weight := v.2 }))

/-- `DELETE FROM entities/topics WHERE content_id = ?`. -/
def deleteChildren (st : DBState) (cid : PyStr) : DBState :=
  { st with
    entities := st.entities.filter (fun r => !(r.content_id == cid)),
    topics := st.topics.filter (fun r => !(r.content_id == cid)) }

/-- The `INSERT INTO entities ... / INSERT INTO topics ...` loops of
`add_content` (run only for keys that are present). -/
def insertChildren (st : DBState) (cd : ContentData) : DBState :=
  { st with
    entities := st.entities ++ entityRowsOf cd,
    topics := st.topics ++ topicRowsOf cd }

/-- `add_content(content_data, embedding_bytes)` (knowledge_database.py lines
181–343).  Looks up the row by `content_id`; if present, updates metadata
(and the embedding only when `embedding_bytes` is provided) when the hash
changed or a new embedding fills a missing one, else leaves the row alone and
refreshes children only when they were supplied; if absent, inserts.  Ends
with `_check_cleanup_needed`, except on the early `return True` taken when
nothing needed changing.  Returns the success flag (`True` on every
non-exceptional path; the `except` branch that returns `False` models
store-level I/O errors, outside this embedding). -/
def add_content (hashFn : HashInput → PyStr) (cfg : DBConfig) (now : Nat)
    (st : DBState) (cd : ContentData) (embedding_bytes : Option EmbBytes) :
    DBState × Bool :=
  let content_hash := hashFn (hashInputOf cd)
  let cid := cd.id
  match st.content.find? (fun r => r.content_id == cid) with
  | some existing =>
    let needs_update := existing.hash ≠ content_hash ||
      (embedding_bytes.isSome && existing.embedding.isNone)
    if needs_update then
      let updated : ContentRow :=
        { existing with
          title := cd.title, url := cd.url, hash := content_hash,
          embedding := if embedding_bytes.isSome then embedding_bytes else existing.embedding,
          updated_at := now }
      let st1 : DBState :=
        { st with content := st.content.map (fun r => if r.content_id == cid then updated else r) }
      let st2 := insertChildren (deleteChildren st1 cid) cd
      (_check_cleanup_needed cfg st2, true)
    else
      if cd.entities.isSome || cd.topics.isSome then
        let st2 := insertChildren (deleteChildren st cid) cd
        (_check_cleanup_needed cfg st2, true)
      else
        (st, true)
  | none =>
    let inserted : ContentRow :=
      { content_id := cid, title := cd.title, url := cd.url, hash := content_hash,
        embedding := embedding_bytes, created_at := now, updated_at := now }
    let st1 : DBState := { st with content := st.content ++ [inserted] }
    let st2 := insertChildren st1 cd
    (_check_cleanup_needed cfg st2, true)

/-! ## Knowledge store: `remove_content` and `get_database_stats` -/

/-- `remove_content(content_id)` (lines 345–372): delete children, delete the
content row, return `True` (also when the id was absent). -/
def remove_content (st : DBState) (cid : PyStr) : DBState × Bool :=
  ({ content := st.content.filter (fun r => !(r.content_id == cid)),
     entities := st.entities.filter (fun r => !(r.content_id == cid)),
     topics := st.topics.filter (fun r => !(r.content_id == cid)) }, true)

/-- The dictionary `get_database_stats` returns (lines 517–564).  The
`database_size_kb` field is the on-disk file size and has no model here. -/
structure DBStats where
  content_count : Nat
  entity_count : Nat
  topic_count : Nat
  unique_entities : Nat
  unique_topics : Nat
  last_update : Option Nat
deriving DecidableEq, Repr

/-- `get_database_stats`: the table counts, `COUNT(DISTINCT ...)` for unique
entity/topic values, and `MAX(updated_at)`. -/
def get_database_stats (st : DBState) : DBStats :=
  { content_count := st.content.length,
    entity_count := st.entities.length,
    topic_count := st.topics.length,
    unique_entities := (st.entities.map (fun r => r.entity_value)).dedup.length,
    unique_topics := (st.topics.map (fun r => r.topic_value)).dedup.length,
    last_update := (st.content.map (fun r => r.updated_at)).max? }

/-! ## Knowledge store: semantic retrieval

`get_all_content_with_embeddings` (lines 674–746) and
`find_related_content_semantic` (lines 749–811).  `pickle.loads` enters as a
parameter `deser : EmbBytes → Option Emb` (`none` models an unpickling
failure or a value that is not a numpy array — both rows are skipped);
`_calculate_cosine_similarity` over numpy floats enters as a parameter
`sim : Emb → Emb → ℚ`. -/

/-- One candidate returned by `get_all_content_with_embeddings`. -/
structure SemCandidate where
  content_id : PyStr
  title : PyStr
  url : PyStr
  embedding : Emb
deriving DecidableEq, Repr

/-- One result item of `find_related_content_semantic`. -/
structure SemResult where
  content_id : PyStr
  title : PyStr
  url : PyStr
  similarity : ℚ
deriving DecidableEq, Repr

/-- `get_all_content_with_embeddings(exclude_url)`: select rows whose
embedding is not NULL, adding `AND url != ?` only when `exclude_url` is
truthy (Python's `if exclude_url:` — both `None` and the empty string skip
the filter); then skip rows with an empty blob and rows whose blob does not
deserialise to an array. -/
def get_all_content_with_embeddings (deser : EmbBytes → Option Emb)
    (st : DBState) (exclude_url : Option PyStr) : List SemCandidate :=
  let selected := st.content.filter (fun r =>
    r.embedding.isSome &&
      (match exclude_url with
       | some u => if u.isEmpty then true else !(r.url == u)
       | none => true))
  selected.filterMap (fun r =>
    match r.embedding with
    | none => none
    | some blob =>
      if blob.isEmpty then none
      else
        match deser blob with
        | none => none
        | some v => some { content_id := r.content_id, title := r.title, url := r.url,
                           embedding := v })

/-- The scoring pass of `find_related_content_semantic`: for each candidate
with a non-empty embedding, compute the similarity and keep the item when it
reaches `min_similarity`, in scan order. -/
def semanticScores (sim : Emb → Emb → ℚ) (query_embedding : Emb)
    (min_similarity : ℚ) (candidates : List SemCandidate) : List SemResult :=
  candidates.filterMap (fun c =>
    if !c.embedding.isEmpty then
      let similarity := sim query_embedding c.embedding
      if min_similarity ≤ similarity then
        some { content_id := c.content_id, title := c.title, url := c.url,
               similarity := similarity }
      else none
    else none)

/-- Descending comparison on similarity, as used by
`results_with_scores.sort(key=lambda x: x["similarity"], reverse=True)`
(a stable sort; `List.mergeSort` is likewise stable). -/
def simDescLe (a b : SemResult) : Bool :=
  b.similarity ≤ a.similarity

/-- `find_related_content_semantic(query_embedding, exclude_url, top_n,
min_similarity)`: empty for an empty query embedding, else score the
candidates from `get_all_content_with_embeddings`, sort by similarity
descending (stable) and return the first `top_n`. -/
def find_related_content_semantic (deser : EmbBytes → Option Emb)
    (sim : Emb → Emb → ℚ) (st : DBState) (query_embedding : Emb)
    (exclude_url : Option PyStr) (top_n : Nat) (min_similarity : ℚ) :
    List SemResult :=
  if query_embedding.isEmpty then []
  else
    let all_candidates := get_all_content_with_embeddings deser st exclude_url
    if all_candidates.isEmpty then []
    else
      let results_with_scores := semanticScores sim query_embedding min_similarity all_candidates
      (results_with_scores.mergeSort simDescLe).take top_n

/-! ## Enhanced analyzer: configuration and paragraph segmentation -/

/-- The configuration fields `EnhancedContentAnalyzer` reads, with the
defaults of its `_load_config`. -/
structure AnalyzerConfig where
  min_relevance : ℚ := 0.45
  min_confidence : ℚ := 0.6
  max_links_per_paragraph : Nat := 2
  max_suggestions : Nat := 15
  min_paragraph_length : Nat := 50
  min_content_length : Nat := 100
deriving Repr

/-- `_split_into_paragraphs` (enhanced_analyzer.py lines 115–122): split on
`"\n\n"` (see `pySplitOn` for why the regex behaves so); if that yields at
most one piece and the text has a single newline somewhere, split on single
newlines keeping pieces whose stripped length exceeds 20; finally keep the
stripped pieces whose length is at least `min_paragraph_length`. -/
def _split_into_paragraphs (cfg : AnalyzerConfig) (content : PyStr) : List PyStr :=
  if content.isEmpty then []
  else
    let paragraphs := pySplitOn "\n\n".data content
    let paragraphs :=
      if paragraphs.length ≤ 1 && content.contains '\n' then
        (pySplitOn "\n".data content).filter (fun p => 20 < (pyStrip p).length)
      else paragraphs
    (paragraphs.filter (fun p => cfg.min_paragraph_length ≤ (pyStrip p).length)).map pyStrip

/-! ## Enhanced analyzer: the suggestion loop of `analyze_content`

External steps enter as parameters:

* `embed : PyStr → Option Emb` — `_generate_embedding` for a paragraph
  (`none` when the model is missing or encoding fails; the paragraph is
  skipped);
* `gen : PyStr → PyStr → List AnchorOption` — the composition of
  `_extract_keywords_from_title` (NLTK stopwords) and
  `anchor_generator.generate_anchor_options` applied to a paragraph and a
  target title;
* `round3 / round2 : ℚ → ℚ` — Python's `round(x, 3)` / `round(x, 2)` on
  floats. -/

/-- One element of the anchor option list `generate_anchor_options` returns. -/
structure AnchorOption where
  text : PyStr
  context : PyStr
  confidence : ℚ
  position : Nat
deriving DecidableEq, Repr

/-- One link suggestion of the analysis result. -/
structure Suggestion where
  paragraph_index : Nat
  target_url : PyStr
  target_title : PyStr
  relevance : ℚ
  anchor_text : PyStr
  anchor_context : PyStr
  anchor_confidence : ℚ
deriving DecidableEq, Repr

/-- Python `max(anchor_options, key=lambda x: x.get("confidence", 0.0))`:
the first option of maximal confidence (later options replace the current
best only when strictly greater). -/
def bestAnchor (o : AnchorOption) (os : List AnchorOption) : AnchorOption :=
  os.foldl (fun best x => if best.confidence < x.confidence then x else best) o

/-- The inner `for target in relevant_targets` loop of `analyze_content`
(lines 207–249), threading the per-paragraph link counter
(`processed_targets_for_paragraph`) and the accumulated opportunities. -/
def processTargets (cfg : AnalyzerConfig) (gen : PyStr → PyStr → List AnchorOption)
    (round3 round2 : ℚ → ℚ) (para_idx : Nat) (paragraph : PyStr) :
    List SemResult → (Nat → Nat) → List Suggestion → (Nat → Nat) × List Suggestion
  | [], counts, acc => (counts, acc)
  | target :: rest, counts, acc =>
    if cfg.max_links_per_paragraph ≤ counts para_idx then (counts, acc)
    else
      match gen paragraph target.title with
      | [] => processTargets cfg gen round3 round2 para_idx paragraph rest counts acc
      | o :: os =>
        let best := bestAnchor o os
        if cfg.min_confidence ≤ best.confidence then
          let s : Suggestion :=
            { paragraph_index := para_idx, target_url := target.url,
              target_title := target.title, relevance := round3 target.similarity,
              anchor_text := best.text, anchor_context := best.context,
              anchor_confidence := round2 best.confidence }
          processTargets cfg gen round3 round2 para_idx paragraph rest
            (fun i => if i = para_idx then counts i + 1 else counts i) (acc ++ [s])
        else
          processTargets cfg gen round3 round2 para_idx paragraph rest counts acc

/-- The outer `for para_idx, paragraph in enumerate(paragraphs)` loop of
`analyze_content` (lines 175–249): skip a paragraph when its link counter is
full or its embedding fails, query the knowledge base semantic search with
`top_n=10` and threshold `min_relevance`, and process the targets. -/
def suggestionLoop (cfg : AnalyzerConfig) (deser : EmbBytes → Option Emb)
    (sim : Emb → Emb → ℚ) (embed : PyStr → Option Emb)
    (gen : PyStr → PyStr → List AnchorOption) (round3 round2 : ℚ → ℚ)
    (kb : DBState) (url : Option PyStr) (paragraphs : List PyStr) : List Suggestion :=
  (paragraphs.enum.foldl (fun state pair =>
    let para_idx := pair.1
    let paragraph := pair.2
    if cfg.max_links_per_paragraph ≤ state.1 para_idx then state
    else
      match embed paragraph with
      | none => state
      | some paragraph_embedding =>
        let relevant_targets := find_related_content_semantic deser sim kb
          paragraph_embedding url 10 cfg.min_relevance
        if relevant_targets.isEmpty then state
        else processTargets cfg gen round3 round2 para_idx paragraph relevant_targets
          state.1 state.2)
    ((fun _ => 0), ([] : List Suggestion))).2

/-- Descending comparison on `(relevance, anchor_confidence)`, as used by
`all_opportunities.sort(key=lambda x: (x["relevance"], x["anchor_confidence"]),
reverse=True)` (stable). -/
def suggDescLe (a b : Suggestion) : Bool :=
  decide (b.relevance < a.relevance ∨
    (b.relevance = a.relevance ∧ b.anchor_confidence ≤ a.anchor_confidence))

/-- The analysis payload assembled by `_perform_basic_analysis` (the fields
the claims and the bulk processor consume; the payload is produced by the
NLTK-backed specialised analyzers, which enter as a parameter `basic`).  The
`error` field models the `"error"` key the `except` branch adds. -/
structure BasicAnalysis where
  fashion_entities : ChildMap
  primary_topic : Option PyStr
  subtopics : List PyStr
  error : Option PyStr
deriving DecidableEq, Repr

/-- The dictionary `analyze_content` returns (`_format_success_response` /
`_format_error_response`).  `analysis = none` models the empty `{}` payload
of an error response; `processing_time` is wall-clock and has no model
here. -/
structure AnalyzeResult where
  analysis : Option BasicAnalysis
  link_suggestions : List Suggestion
  status : PyStr
  error : Option PyStr
deriving DecidableEq, Repr

/-- `_format_error_response(error_message)` (lines 343–351). -/
def _format_error_response (error_message : PyStr) : AnalyzeResult :=
  { analysis := none, link_suggestions := [], status := "error".data,
    error := some error_message }

/-- `_format_success_response(analysis_result, suggestions, start_time)`
(lines 333–341). -/
def _format_success_response (analysis_result : BasicAnalysis)
    (suggestions : List Suggestion) : AnalyzeResult :=
  { analysis := some analysis_result, link_suggestions := suggestions,
    status := "success".data, error := none }

/-- `analyze_content(content, title, site_id, url)` (enhanced_analyzer.py
lines 125–265).  Validation failures return an error payload immediately;
the body of the `try` block runs with the per-site knowledge base, which may
fail to initialise: `kbE = .error e` models an exception raised inside the
`try` (caught by the `except` branch, which preserves the message). -/
def analyze_content (cfg : AnalyzerConfig) (deser : EmbBytes → Option Emb)
    (sim : Emb → Emb → ℚ) (embed : PyStr → Option Emb)
    (gen : PyStr → PyStr → List AnchorOption) (round3 round2 : ℚ → ℚ)
    (basic : PyStr → PyStr → BasicAnalysis) (kbE : Except PyStr DBState)
    (content title site_id : PyStr) (url : Option PyStr) : AnalyzeResult :=
  if content.isEmpty || title.isEmpty || site_id.isEmpty then
    _format_error_response "Missing required parameters (content, title, or site_id)".data
  else if content.length < cfg.min_content_length then
    _format_error_response
      ("Content too short (minimum ".data ++ (toString cfg.min_content_length).data ++
        " characters)".data)
  else
    match kbE with
    | .error e => _format_error_response ("Internal server error during analysis: ".data ++ e)
    | .ok kb =>
      let analysis_result := basic content title
      let paragraphs := _split_into_paragraphs cfg content
      let all_opportunities := suggestionLoop cfg deser sim embed gen round3 round2 kb url
        paragraphs
      let final_suggestions := (all_opportunities.mergeSort suggDescLe).take cfg.max_suggestions
      _format_success_response analysis_result final_suggestions

/-! ## Anchor text generator: scoring and filtering

`_score_anchor_candidates` (anchor_text_generator.py lines 313–404) and
`_filter_anchor_candidates` (lines 406–430).  NLTK's `word_tokenize` enters
as a parameter `tokenize`. -/

/-- A candidate phrase, as produced by the three candidate generators. -/
structure AnchorCandidate where
  phrase : PyStr
  type : PyStr
  position : Nat
deriving DecidableEq, Repr

/-- A scored candidate. -/
structure ScoredCandidate where
  phrase : PyStr
  type : PyStr
  score : ℚ
  position : Nat
deriving DecidableEq, Repr

/-- The `weak_phrases` set of `AnchorTextGenerator.__init__`. -/
def weak_phrases : List PyStr :=
  ["click here", "read more", "learn more", "find out more", "discover",
   "check out", "see here", "view this", "this page", "full article",
   "details here", "more info", "click", "here", "link", "url", "website"].map
    String.data

/-- The `weak_starters` set. -/
def weak_starters : List PyStr :=
  ["the", "a", "an", "and", "or", "but", "because", "since", "when", "by",
   "for", "with", "about", "against", "before", "after", "above", "below",
   "to", "of", "in", "on", "at", "from", "into", "during", "until", "while"].map
    String.data

/-- The `weak_endings` set. -/
def weak_endings : List PyStr :=
  ["the", "a", "an", "and", "or", "but", "if", "with", "of", "to", "for",
   "in", "on", "at", "by", "about", "as", "into", "like", "through", "after",
   "over", "between", "out", "against", "during", "without", "before", "under"].map
    String.data

/-- The `intent_phrases` list of scoring step 4. -/
def intent_indicator_list : List PyStr :=
  ["how to", "guide", "tips", "tutorial", "for men", "for women"].map String.data

/-- The type-based base score: `{"natural": 0.6, "intent": 0.8,
"keyword": 0.5}.get(type, 0.5)`. -/
def baseScoreOf (type : PyStr) : ℚ :=
  if type == "natural".data then 0.6
  else if type == "intent".data then 0.8
  else if type == "keyword".data then 0.5
  else 0.5

/-- The candidate score of `_score_anchor_candidates` before the final clamp,
with the weak-phrase set as an explicit argument (the code uses
`weak_phrases`).  Each addend mirrors one numbered step of the source. -/
def rawAnchorScore (tokenize : PyStr → List PyStr) (weakP : List PyStr)
    (target_keywords : List PyStr) (target_title : PyStr) (c : AnchorCandidate) : ℚ :=
  let phrase_lower := pyLower c.phrase
  let phrase_words := pySplit phrase_lower
  let title_words := if !target_title.isEmpty then tokenize (pyLower target_title) else []
  let keyword_matches :=
    (target_keywords.filter (fun k => pyContains phrase_lower (pyLower k))).length
  let keyword_score : ℚ := min 0.3 (0.1 * (keyword_matches : ℚ))
  let word_count := phrase_words.length
  let length_adjust : ℚ :=
    if word_count < 2 then -0.2
    else if 6 < word_count then -0.1
    else if word_count == 2 then 0.05
    else if 3 ≤ word_count ∧ word_count ≤ 4 then 0.1
    else 0
  let title_matches := (title_words.filter (fun w => phrase_words.contains w)).length
  let title_score : ℚ := min 0.2 (0.05 * (title_matches : ℚ))
  let intent_adjust : ℚ :=
    if intent_indicator_list.any (fun i => pyContains phrase_lower i) then 0.15 else 0
  let weak_phrase_adjust : ℚ := if weakP.contains phrase_lower then -0.5 else 0
  let weak_start_adjust : ℚ :=
    if !phrase_words.isEmpty && weak_starters.contains (phrase_words.headD []) then -0.1 else 0
  let weak_end_adjust : ℚ :=
    if !phrase_words.isEmpty && weak_endings.contains (phrase_words.getLastD []) then -0.1 else 0
  let boundary_adjust : ℚ :=
    if weak_starters.any (fun w => w.isPrefixOf phrase_lower) ||
       weak_endings.any (fun w => w.isSuffixOf phrase_lower) then -0.15 else 0
  let quote_adjust : ℚ :=
    if ("\"".data).isPrefixOf c.phrase && ("\"".data).isSuffixOf c.phrase then 0.05 else 0
  baseScoreOf c.type + keyword_score + length_adjust + title_score + intent_adjust +
    weak_phrase_adjust + weak_start_adjust + weak_end_adjust + boundary_adjust + quote_adjust

/-- `_score_anchor_candidates(candidates, target_keywords, target_title)`:
score each candidate and clamp to `[0, 1]`. -/
def _score_anchor_candidates (tokenize : PyStr → List PyStr)
    (candidates : List AnchorCandidate) (target_keywords : List PyStr)
    (target_title : PyStr) : List ScoredCandidate :=
  if candidates.isEmpty then []
  else
    candidates.map (fun c =>
      { phrase := c.phrase, type := c.type,
        score := max 0 (min 1 (rawAnchorScore tokenize weak_phrases target_keywords
          target_title c)),
        position := c.position })

/-- The dedup/length pass of `_filter_anchor_candidates`: drop a candidate
whose lowercased phrase was already kept, or whose phrase is shorter than
`min_anchor_length = 3` or longer than `max_anchor_length = 60` characters
(skipped candidates are not added to the seen set). -/
def dedupCandidates : List ScoredCandidate → List PyStr → List ScoredCandidate
  | [], _ => []
  | c :: rest, seen =>
    if seen.contains (pyLower c.phrase) || c.phrase.length < 3 || 60 < c.phrase.length then
      dedupCandidates rest seen
    else
      c :: dedupCandidates rest (pyLower c.phrase :: seen)

/-- Descending comparison on candidate score, as used by
`unique_candidates.sort(key=lambda x: x["score"], reverse=True)` (stable). -/
def scoreDescLe (a b : ScoredCandidate) : Bool :=
  b.score ≤ a.score

/-- `_filter_anchor_candidates(candidates)`: deduplicate case-insensitively,
bound the length, sort by score descending (stable) and keep the top 10. -/
def _filter_anchor_candidates (candidates : List ScoredCandidate) : List ScoredCandidate :=
  ((dedupCandidates candidates []).mergeSort scoreDescLe).take 10

/-! ## Lexical topic extraction (`ContentAnalyzer._extract_topics`)

analyzer.py lines 226–276.  A topic category, as loaded from
`topic_weights.yaml` by `_init_topic_categories`, holds a term list and a
weight; `terms_lower` is the set `{str(t).lower() for t in terms if t}`,
modelled as a duplicate-free list (Python set iteration order is
unspecified; the score of a term is aggregated with `max`, so the extracted
scores do not depend on that order, only tie order in the final sort
does). -/

/-- A topic category. -/
structure TopicCategory where
  name : PyStr
  terms : List PyStr
  weight : ℚ
deriving Repr

/-- The `terms_lower` set of a category. -/
def termsLower (terms : List PyStr) : List PyStr :=
  ((terms.filter (fun t => !t.isEmpty)).map pyLower).dedup

/-- Recover the original-case term for a matched lowercased term: the first
`t` in the category's `terms` with `str(t).lower() == term_lower`, defaulting
to the lowercased term itself. -/
def findOriginalTerm (terms : List PyStr) (term_lower : PyStr) : PyStr :=
  match terms.find? (fun t => pyLower t == term_lower) with
  | some t => t
  | none => term_lower

/-- The per-term score of `_extract_topics` (lines 258–266):
`weight*0.6 + word_count_score*0.3 + term_length_score*0.1` with
`word_count_score = min(1.0, word_count/5.0)` and
`term_length_score = min(1.0, len(original_term)/25.0)`. -/
def topicScore (weight : ℚ) (original_term : PyStr) : ℚ :=
  let term_length_score := min 1 ((original_term.length : ℚ) / 25)
  let word_count := (pySplit original_term).length
  let word_count_score := min 1 ((word_count : ℚ) / 5)
  weight * 0.6 + word_count_score * 0.3 + term_length_score * 0.1

/-- The per-term score as the specification states it, for comparison with
`topicScore` (the one the code computes):
`weight*0.5 + word_count_score*0.3 + term_length_score*0.2` with
`word_count_score = min(1, words/4)` and `term_length_score = min(1, chars/20)`. -/
def claimedTopicScore (weight : ℚ) (original_term : PyStr) : ℚ :=
  let term_length_score := min 1 ((original_term.length : ℚ) / 20)
  let word_count := (pySplit original_term).length
  let word_count_score := min 1 ((word_count : ℚ) / 4)
  weight * 0.5 + word_count_score * 0.3 + term_length_score * 0.2

/-- `topic_scores[original_term] = max(score, topic_scores.get(original_term, 0))`
over an insertion-ordered association list (a Python dict keeps insertion
order). -/
def upsertMax (acc : List (PyStr × ℚ)) (k : PyStr) (v : ℚ) : List (PyStr × ℚ) :=
  if acc.any (fun p => p.1 == k) then
    acc.map (fun p => if p.1 == k then (p.1, max v p.2) else p)
  else
    acc ++ [(k, max v 0)]

/-- The `search_text` of `_extract_topics`. -/
def searchTextOf (content title : PyStr) : PyStr :=
  pyLower (if !content.isEmpty then content ++ " ".data ++ title else title)

/-- The score dictionary of `_extract_topics`, sorted by score descending
(stable over insertion order). -/
def extractTopicsScored (cats : List TopicCategory) (content title : PyStr) :
    List (PyStr × ℚ) :=
  let search_text := searchTextOf content title
  let topic_scores := cats.foldl (fun acc cat =>
    (termsLower cat.terms).foldl (fun acc term_lower =>
      if pyContains search_text term_lower then
        let original_term := findOriginalTerm cat.terms term_lower
        upsertMax acc original_term (topicScore cat.weight original_term)
      else acc) acc) []
  topic_scores.mergeSort (fun a b => b.2 ≤ a.2)

/-- `_extract_topics(content, title)`: empty when the search text or the
category table is empty, else the top 15 topics by score. -/
def _extract_topics (cats : List TopicCategory) (content title : PyStr) : List PyStr :=
  if (searchTextOf content title).isEmpty then []
  else if cats.isEmpty then []
  else ((extractTopicsScored cats content title).take 15).map (fun p => p.1)

/-! ## Bulk processor: `_process_single_item`

bulk_processor.py lines 390–620.  The claims concern the knowledge-building
gate: the item is validated, analysed, upserted into the store, and link
suggestions are generated only when `knowledge_building_mode` is off and the
store's content count (after the upsert) has reached `initial_db_size`. -/

/-- The bulk-processor configuration field the gate reads, with its
default. -/
structure BulkConfig where
  initial_db_size : Nat := 100
deriving Repr

/-- One batch item (`id`, `title`, `content`, `url`). -/
structure BulkItem where
  id : PyStr
  title : PyStr
  content : PyStr
  url : PyStr
deriving DecidableEq, Repr

/-- The per-item result dictionary (`analysis` and `processing_time` carry no
information the claims touch and are omitted). -/
structure ItemResult where
  id : PyStr
  title : PyStr
  url : PyStr
  status : PyStr
  error : Option PyStr
  link_suggestions : List Suggestion
  in_knowledge_db : Bool
  suggestion_error : Option PyStr
deriving DecidableEq, Repr

/-- The `knowledge_data` dictionary `_process_single_item` builds for
`add_content` (lines 491–504). -/
def knowledgeDataOf (item : BulkItem) (ba : BasicAnalysis) : ContentData :=
  { id := item.id, title := item.title, url := item.url, content := item.content,
    entities := some ba.fashion_entities,
    topics := some
      [("primary".data,
        match ba.primary_topic with
        | some t => if t.isEmpty then [] else [(t, 1)]
        | none => []),
       ("sub".data, ba.subtopics.map (fun t => (t, 1)))] }

/-- The embedding source text (lines 462–472): the content when
`embedding_text_field == "content"`, else the title (also for an invalid
field value). -/
def embeddingSourceText (dbcfg : DBConfig) (item : BulkItem) : PyStr :=
  if dbcfg.embedding_text_field == "content".data then item.content else item.title

/-- `_process_single_item(item, site_id)`, returning the item result and the
updated store.  `embedKB` models the composition of the knowledge base's
`_generate_embedding` and `_embedding_to_bytes` (`none` when either fails);
`basic` models `_perform_basic_analysis`.  Items failing validation or basic
analysis raise, are caught, and yield an error result with the store
untouched. -/
def _process_single_item (hashFn : HashInput → PyStr) (dbcfg : DBConfig)
    (acfg : AnalyzerConfig) (bcfg : BulkConfig) (now : Nat)
    (embedKB : PyStr → Option EmbBytes) (basic : PyStr → PyStr → BasicAnalysis)
    (deser : EmbBytes → Option Emb) (sim : Emb → Emb → ℚ)
    (embed : PyStr → Option Emb) (gen : PyStr → PyStr → List AnchorOption)
    (round3 round2 : ℚ → ℚ) (kbE : Except PyStr DBState)
    (knowledge_building_mode : Bool) (st : DBState) (item : BulkItem)
    (site_id : PyStr) : ItemResult × DBState :=
  let content := item.content
  let title := item.title
  if content.isEmpty || title.isEmpty then
    ({ id := item.id, title := title, url := item.url, status := "error".data,
       error := some "Missing content or title".data, link_suggestions := [],
       in_knowledge_db := false, suggestion_error := none }, st)
  else
    let analysis_for_kb := basic content title
    match analysis_for_kb.error with
    | some e =>
      ({ id := item.id, title := title, url := item.url, status := "error".data,
         error := some ("Basic analysis failed: ".data ++ e), link_suggestions := [],
         in_knowledge_db := false, suggestion_error := none }, st)
    | none =>
      let embedding_source_text := embeddingSourceText dbcfg item
      let embedding_bytes :=
        if !embedding_source_text.isEmpty then embedKB embedding_source_text else none
      let upserted := add_content hashFn dbcfg now st (knowledgeDataOf item analysis_for_kb)
        embedding_bytes
      let st' := upserted.1
      let db_success := upserted.2
      let generated : List Suggestion × Option PyStr :=
        if !knowledge_building_mode then
          if bcfg.initial_db_size ≤ st'.content.length then
            let ar := analyze_content acfg deser sim embed gen round3 round2 basic kbE
              content title site_id (some item.url)
            if ar.status == "success".data then (ar.link_suggestions, none)
            else ([], some (ar.error.getD "Suggestion generation failed with unknown error".data))
          else ([], none)
        else ([], none)
      ({ id := item.id, title := title, url := item.url, status := "success".data,
         error := none, link_suggestions := generated.1, in_knowledge_db := db_success,
         suggestion_error := generated.2 }, st')

/-! ## Theorems: deletion (claim C5) -/

/-- C5.  `remove_content` removes the content record and all of its entity
and topic child rows and returns `true`; for a `content_id` not present in
the store (no content row and no child rows) it also returns `true` and
leaves the store and hence `get_database_stats` unchanged — deletion is
idempotent. -/
theorem remove_content_spec (st : DBState) (cid : PyStr) :
    (remove_content st cid).2 = true ∧
    (∀ r ∈ (remove_content st cid).1.content, ¬r.content_id = cid) ∧
    (∀ r ∈ (remove_content st cid).1.entities, ¬r.content_id = cid) ∧
    (∀ r ∈ (remove_content st cid).1.topics, ¬r.content_id = cid) ∧
    ((∀ r ∈ st.content, ¬r.content_id = cid) →
      (∀ r ∈ st.entities, ¬r.content_id = cid) →
      (∀ r ∈ st.topics, ¬r.content_id = cid) →
      (remove_content st cid).1 = st ∧
      get_database_stats (remove_content st cid).1 = get_database_stats st) := by
  refine ⟨rfl, ?_, ?_, ?_, ?_⟩
  · intro r hr
    have h := (List.mem_filter.mp hr).2
    simpa using h
  · intro r hr
    have h := (List.mem_filter.mp hr).2
    simpa using h
  · intro r hr
    have h := (List.mem_filter.mp hr).2
    simpa using h
  · intro h1 h2 h3
    have hc : st.content.filter (fun r => !(r.content_id == cid)) = st.content :=
      List.filter_eq_self.mpr (fun r hr => by simpa using h1 r hr)
    have he : st.entities.filter (fun r => !(r.content_id == cid)) = st.entities :=
      List.filter_eq_self.mpr (fun r hr => by simpa using h2 r hr)
    have ht : st.topics.filter (fun r => !(r.content_id == cid)) = st.topics :=
      List.filter_eq_self.mpr (fun r hr => by simpa using h3 r hr)
    have hst : (remove_content st cid).1 = st := by
      simp only [remove_content, hc, he, ht]
    exact ⟨hst, by rw [hst]⟩

/-! ## Theorems: semantic search (claim C1) -/

theorem simDescLe_trans (a b c : SemResult) (h1 : simDescLe a b = true)
    (h2 : simDescLe b c = true) : simDescLe a c = true := by
  simp only [simDescLe, decide_eq_true_eq] at *
  exact le_trans h2 h1

theorem simDescLe_total (a b : SemResult) : (simDescLe a b || simDescLe b a) = true := by
  simp only [simDescLe, Bool.or_eq_true, decide_eq_true_eq]
  exact le_total b.similarity a.similarity

theorem mem_semanticScores {sim : Emb → Emb → ℚ} {q : Emb} {m : ℚ}
    {cands : List SemCandidate} {x : SemResult} (hx : x ∈ semanticScores sim q m cands) :
    m ≤ x.similarity ∧ ∃ c ∈ cands, x.url = c.url := by
  obtain ⟨c, hc, heq⟩ := List.mem_filterMap.mp hx
  simp only at heq
  split_ifs at heq with h1 h2
  cases heq
  exact ⟨h2, c, hc, rfl⟩

theorem mem_get_all_url {deser : EmbBytes → Option Emb} {st : DBState} {u : PyStr}
    {c : SemCandidate} (hc : c ∈ get_all_content_with_embeddings deser st (some u))
    (hu : u.isEmpty = false) : ¬c.url = u := by
  obtain ⟨r, hr, heq⟩ := List.mem_filterMap.mp hc
  have hcond := (List.mem_filter.mp hr).2
  simp only [hu, Bool.false_eq_true, if_false, Bool.and_eq_true, Bool.not_eq_true',
    beq_eq_false_iff_ne, ne_eq] at hcond
  have hurl : ¬r.url = u := hcond.2
  match hemb : r.embedding with
  | none => rw [hemb] at heq; cases heq
  | some blob =>
    rw [hemb] at heq
    simp only at heq
    split_ifs at heq with h1
    match hdes : deser blob with
    | none => rw [hdes] at heq; cases heq
    | some v =>
      rw [hdes] at heq
      cases heq
      exact hurl

theorem mem_find_related {deser : EmbBytes → Option Emb} {sim : Emb → Emb → ℚ}
    {st : DBState} {q : Emb} {exu : Option PyStr} {n : Nat} {m : ℚ} {x : SemResult}
    (hx : x ∈ find_related_content_semantic deser sim st q exu n m) :
    x ∈ semanticScores sim q m (get_all_content_with_embeddings deser st exu) := by
  simp only [find_related_content_semantic] at hx
  split_ifs at hx with h1 h2
  · exact absurd hx (List.not_mem_nil x)
  · exact absurd hx (List.not_mem_nil x)
  · have hm : x ∈ List.mergeSort (semanticScores sim q m
        (get_all_content_with_embeddings deser st exu)) simDescLe :=
      (List.take_sublist n _).mem hx
    exact List.mem_mergeSort.mp hm

/-- C1 (amended).  For every query embedding, exclusion URL, limit and
threshold, `find_related_content_semantic` returns at most `top_n` items,
every returned item's similarity is at least `min_similarity`, items are
sorted in descending order of similarity with ties kept in original scan
order (the returned items of any fixed similarity are a sublist of the
scan-ordered scored candidates), and — provided the exclusion URL is a
non-empty string (Python's `if exclude_url:` treats the empty string like
`None` and skips the filter) — no returned item's url equals the exclusion
URL. -/
theorem find_related_content_semantic_spec (deser : EmbBytes → Option Emb)
    (sim : Emb → Emb → ℚ) (st : DBState) (query : Emb) (exclude_url : Option PyStr)
    (top_n : Nat) (min_similarity : ℚ) :
    (find_related_content_semantic deser sim st query exclude_url top_n
        min_similarity).length ≤ top_n ∧
    (∀ x ∈ find_related_content_semantic deser sim st query exclude_url top_n
        min_similarity, min_similarity ≤ x.similarity) ∧
    (find_related_content_semantic deser sim st query exclude_url top_n
        min_similarity).Pairwise (fun a b => b.similarity ≤ a.similarity) ∧
    (∀ u, exclude_url = some u → u.isEmpty = false →
      ∀ x ∈ find_related_content_semantic deser sim st query exclude_url top_n
        min_similarity, ¬x.url = u) ∧
    (∀ s : ℚ,
      ((find_related_content_semantic deser sim st query exclude_url top_n
          min_similarity).filter (fun x => decide (x.similarity = s))).Sublist
      ((semanticScores sim query min_similarity
          (get_all_content_with_embeddings deser st exclude_url)).filter
        (fun x => decide (x.similarity = s)))) := by
  refine ⟨?_, ?_, ?_, ?_, ?_⟩
  · simp only [find_related_content_semantic]
    split_ifs with h1 h2
    · simp
    · simp
    · exact List.length_take_le _ _
  · intro x hx
    exact (mem_semanticScores (mem_find_related hx)).1
  · simp only [find_related_content_semantic]
    split_ifs with h1 h2
    · simp
    · simp
    · have hs : (List.mergeSort (semanticScores sim query min_similarity
          (get_all_content_with_embeddings deser st exclude_url)) simDescLe).Pairwise
          (fun a b => simDescLe a b = true) :=
        List.sorted_mergeSort simDescLe_trans simDescLe_total _
      have hpw := List.Pairwise.sublist (List.take_sublist top_n _) hs
      exact hpw.imp (fun h => by simpa [simDescLe] using h)
  · intro u hu hne x hx
    subst hu
    obtain ⟨-, c, hc, hurl⟩ := mem_semanticScores (mem_find_related hx)
    rw [hurl]
    exact mem_get_all_url hc hne
  · intro s
    set p : SemResult → Bool := fun x => decide (x.similarity = s) with hp
    simp only [find_related_content_semantic]
    split_ifs with h1 h2
    · simp
    · simp
    · set scored := semanticScores sim query min_similarity
        (get_all_content_with_embeddings deser st exclude_url) with hscored
      have hall : ∀ x ∈ scored.filter p, x.similarity = s := by
        intro x hx
        have hmem := (List.mem_filter.mp hx).2
        simpa [hp] using hmem
      have hpw : (scored.filter p).Pairwise (fun a b => simDescLe a b = true) := by
        refine List.pairwise_of_forall_mem_list ?_
        intro a ha b hb
        simp only [simDescLe, decide_eq_true_eq]
        rw [hall a ha, hall b hb]
      have hsub1 : (scored.filter p).Sublist (List.mergeSort scored simDescLe) :=
        List.sublist_mergeSort simDescLe_trans simDescLe_total hpw (List.filter_sublist _)
      have hsub2 : ((scored.filter p).filter p).Sublist
          ((List.mergeSort scored simDescLe).filter p) := hsub1.filter p
      rw [List.filter_filter,
        show (fun a => p a && p a) = p from funext (fun a => Bool.and_self _)] at hsub2
      have hperm : ((List.mergeSort scored simDescLe).filter p).Perm (scored.filter p) :=
        (List.mergeSort_perm scored simDescLe).filter p
      have heq : (List.mergeSort scored simDescLe).filter p = scored.filter p :=
        (hsub2.eq_of_length hperm.length_eq.symm).symm
      have hfin : ((List.take top_n (List.mergeSort scored simDescLe)).filter p).Sublist
          ((List.mergeSort scored simDescLe).filter p) := (List.take_sublist _ _).filter p
      rw [heq] at hfin
      exact hfin

/-- C1 counterexample.  With the exclusion URL `""` (a legal `Optional[str]`
value, falsy in Python, so `get_all_content_with_embeddings` skips the
`url != ?` filter) and a stored row whose url is also `""`, the returned list
contains an item whose url equals the exclusion URL. -/
theorem find_related_content_semantic_exclusion_counterexample :
    ∃ x ∈ find_related_content_semantic (fun _ => some [1]) (fun _ _ => 1)
      { content := [{ content_id := "c1".data, title := "t".data, url := [],
                      hash := [], embedding := some [0], created_at := 0, updated_at := 0 }],
        entities := [], topics := [] }
      [1] (some []) 5 0, x.url = ([] : PyStr) := by
  have hc : get_all_content_with_embeddings (fun _ => some [1])
      { content := [{ content_id := "c1".data, title := "t".data, url := [],
                      hash := [], embedding := some [0], created_at := 0, updated_at := 0 }],
        entities := [], topics := [] } (some []) =
      [{ content_id := "c1".data, title := "t".data, url := [], embedding := [1] }] := by
    simp [get_all_content_with_embeddings]
  refine ⟨{ content_id := "c1".data, title := "t".data, url := [], similarity := 1 }, ?_, rfl⟩
  unfold find_related_content_semantic
  rw [hc]
  simp [semanticScores, List.mergeSort_singleton]

/-! ## Theorems: lexical topic extraction (claim C6) -/

/-- C6 counterexample.  The specification's score formula
(`weight*0.5 + min(1,words/4)*0.3 + min(1,chars/20)*0.2`) disagrees with the
score the code computes for the term `"coat"` at category weight `1`:
`0.676` (code) versus `0.615` (claim). -/
theorem topic_score_formula_counterexample :
    ¬topicScore 1 "coat".data = claimedTopicScore 1 "coat".data := by
  have h1 : (pySplit "coat".data).length = 1 := by decide
  have h2 : ("coat".data).length = 4 := by decide
  simp only [topicScore, claimedTopicScore, h1, h2]
  norm_num [min_def]

theorem mem_upsertMax {acc : List (PyStr × ℚ)} {k : PyStr} {v : ℚ} {p : PyStr × ℚ}
    (hp : p ∈ upsertMax acc k v) : (∃ q ∈ acc, p.1 = q.1) ∨ p.1 = k := by
  unfold upsertMax at hp
  split_ifs at hp
  · obtain ⟨q, hq, heq⟩ := List.mem_map.mp hp
    left
    refine ⟨q, hq, ?_⟩
    by_cases hk : (q.1 == k) = true
    · rw [if_pos hk] at heq
      rw [← heq]
    · rw [if_neg hk] at heq
      rw [← heq]
  · rcases List.mem_append.mp hp with h | h
    · exact Or.inl ⟨p, h, rfl⟩
    · right
      have := List.mem_singleton.mp h
      rw [this]

theorem topics_inner_invariant (stext : PyStr) (P : PyStr → Prop) (cat : TopicCategory) :
    ∀ (tls : List PyStr) (acc : List (PyStr × ℚ)),
    (∀ tl ∈ tls, pyContains stext tl = true → P (findOriginalTerm cat.terms tl)) →
    (∀ p ∈ acc, P p.1) →
    ∀ p ∈ tls.foldl (fun acc2 term_lower =>
      if pyContains stext term_lower then
        upsertMax acc2 (findOriginalTerm cat.terms term_lower)
          (topicScore cat.weight (findOriginalTerm cat.terms term_lower))
      else acc2) acc, P p.1
  | [], acc, _, hacc => by simpa using hacc
  | tl :: rest, acc, htls, hacc => by
    simp only [List.foldl_cons]
    refine topics_inner_invariant stext P cat rest _ (fun t ht hc =>
      htls t (List.mem_cons_of_mem tl ht) hc) ?_
    by_cases hc : pyContains stext tl = true
    · rw [if_pos hc]
      intro p hp
      rcases mem_upsertMax hp with ⟨q, hq, heq⟩ | heq
      · exact heq ▸ hacc q hq
      · exact heq ▸ htls tl (List.mem_cons_self tl rest) hc
    · rw [if_neg hc]
      exact hacc

theorem topics_foldl_invariant (stext : PyStr) (P : PyStr → Prop) :
    ∀ (cats : List TopicCategory) (acc : List (PyStr × ℚ)),
    (∀ cat ∈ cats, ∀ tl ∈ termsLower cat.terms, pyContains stext tl = true →
      P (findOriginalTerm cat.terms tl)) →
    (∀ p ∈ acc, P p.1) →
    ∀ p ∈ cats.foldl (fun acc cat =>
      (termsLower cat.terms).foldl (fun acc2 term_lower =>
        if pyContains stext term_lower then
          upsertMax acc2 (findOriginalTerm cat.terms term_lower)
            (topicScore cat.weight (findOriginalTerm cat.terms term_lower))
        else acc2) acc) acc, P p.1
  | [], acc, _, hacc => by simpa using hacc
  | cat :: rest, acc, hcats, hacc => by
    simp only [List.foldl_cons]
    refine topics_foldl_invariant stext P rest _
      (fun c hc tl htl hcon => hcats c (List.mem_cons_of_mem cat hc) tl htl hcon) ?_
    exact topics_inner_invariant stext P cat (termsLower cat.terms) acc
      (fun tl htl hcon => hcats cat (List.mem_cons_self cat rest) tl htl hcon) hacc

/-- C6 (amended).  In the lexical fallback path, the per-term score the code
uses is `weight*0.6 + word_count_score*0.3 + term_length_score*0.1` with
`word_count_score = min(1, words/5)` and `term_length_score = min(1, chars/25)`
(not the constants the claim states); the scored topics are sorted by score
descending, only the top 15 are kept, and every extracted topic is the
original-case form of some category term that was matched as a substring of
the search text. -/
theorem extract_topics_spec (cats : List TopicCategory) (content title : PyStr) :
    (_extract_topics cats content title).length ≤ 15 ∧
    (∀ w t, topicScore w t =
      w * 0.6 + min 1 (((pySplit t).length : ℚ) / 5) * 0.3 +
        min 1 ((t.length : ℚ) / 25) * 0.1) ∧
    (extractTopicsScored cats content title).Pairwise (fun a b => b.2 ≤ a.2) ∧
    (∀ t ∈ _extract_topics cats content title, ∃ cat ∈ cats,
      ∃ tl ∈ termsLower cat.terms,
        pyContains (searchTextOf content title) tl = true ∧
        t = findOriginalTerm cat.terms tl) := by
  have htrans : ∀ a b c : PyStr × ℚ, (decide (b.2 ≤ a.2)) = true →
      (decide (c.2 ≤ b.2)) = true → (decide (c.2 ≤ a.2)) = true := by
    intro a b c h1 h2
    simp only [decide_eq_true_eq] at *
    exact le_trans h2 h1
  have htotal : ∀ a b : PyStr × ℚ, (decide (b.2 ≤ a.2) || decide (a.2 ≤ b.2)) = true := by
    intro a b
    simp only [Bool.or_eq_true, decide_eq_true_eq]
    exact le_total b.2 a.2
  have hgood : ∀ p ∈ extractTopicsScored cats content title, ∃ cat ∈ cats,
      ∃ tl ∈ termsLower cat.terms,
        pyContains (searchTextOf content title) tl = true ∧
        p.1 = findOriginalTerm cat.terms tl := by
    intro p hp
    simp only [extractTopicsScored] at hp
    have hp2 := List.mem_mergeSort.mp hp
    exact topics_foldl_invariant (searchTextOf content title)
      (fun s => ∃ cat ∈ cats, ∃ tl ∈ termsLower cat.terms,
        pyContains (searchTextOf content title) tl = true ∧
        s = findOriginalTerm cat.terms tl)
      cats []
      (fun cat hcat tl htl hc => ⟨cat, hcat, tl, htl, hc, rfl⟩)
      (by intro q hq; cases hq) p hp2
  refine ⟨?_, ?_, ?_, ?_⟩
  · simp only [_extract_topics]
    split_ifs
    · simp
    · simp
    · rw [List.length_map]
      exact List.length_take_le _ _
  · intro w t
    rfl
  · simp only [extractTopicsScored]
    have hs := @List.sorted_mergeSort (PyStr × ℚ) (fun a b => decide (b.2 ≤ a.2))
      htrans htotal
    exact (hs _).imp (fun h => by simpa using h)
  · intro t ht
    simp only [_extract_topics] at ht
    split_ifs at ht
    · cases ht
    · cases ht
    · obtain ⟨p, hp, heq⟩ := List.mem_map.mp ht
      obtain ⟨cat, hcat, tl, htl, hc, he⟩ := hgood p ((List.take_sublist _ _).mem hp)
      exact ⟨cat, hcat, tl, htl, hc, heq ▸ he⟩

/-! ## Theorems: anchor candidate scoring and filtering (claim C7) -/

theorem mem_dedupCandidates :
    ∀ {cands : List ScoredCandidate} {seen : List PyStr} {c : ScoredCandidate},
    c ∈ dedupCandidates cands seen →
    c ∈ cands ∧ 3 ≤ c.phrase.length ∧ c.phrase.length ≤ 60
  | [], _, c, hc => absurd hc (List.not_mem_nil c)
  | c' :: rest, seen, c, hc => by
    unfold dedupCandidates at hc
    split_ifs at hc with h
    · have ih := mem_dedupCandidates hc
      exact ⟨List.mem_cons_of_mem c' ih.1, ih.2⟩
    · simp only [Bool.or_eq_true, decide_eq_true_eq, not_or] at h
      rcases List.mem_cons.mp hc with rfl | hmem
      · exact ⟨List.mem_cons_self c rest, by omega, by omega⟩
      · have ih := mem_dedupCandidates hmem
        exact ⟨List.mem_cons_of_mem c' ih.1, ih.2⟩

theorem scoreDescLe_trans (a b c : ScoredCandidate) (h1 : scoreDescLe a b = true)
    (h2 : scoreDescLe b c = true) : scoreDescLe a c = true := by
  simp only [scoreDescLe, decide_eq_true_eq] at *
  exact le_trans h2 h1

theorem scoreDescLe_total (a b : ScoredCandidate) :
    (scoreDescLe a b || scoreDescLe b a) = true := by
  simp only [scoreDescLe, Bool.or_eq_true, decide_eq_true_eq]
  exact le_total b.score a.score

/-- C7 (amended).  `_filter_anchor_candidates` only deduplicates
case-insensitively, enforces the 3–60 character length bounds, sorts by score
descending and keeps the top 10; a candidate whose whole lowercased phrase is
a configured weak phrase is not excluded — `_score_anchor_candidates` merely
scores it exactly `0.5` lower (before clamping) than it would with that
phrase absent from the weak-phrase set, so a weak phrase can still be
returned (and likewise nothing rejects single generic words at this
stage). -/
theorem anchor_candidate_filtering_spec (tokenize : PyStr → List PyStr)
    (candidates : List ScoredCandidate) (target_keywords : List PyStr)
    (target_title : PyStr) :
    (∀ c ∈ _filter_anchor_candidates candidates,
      3 ≤ c.phrase.length ∧ c.phrase.length ≤ 60) ∧
    (_filter_anchor_candidates candidates).length ≤ 10 ∧
    (_filter_anchor_candidates candidates).Pairwise (fun a b => b.score ≤ a.score) ∧
    (∀ c : AnchorCandidate, weak_phrases.contains (pyLower c.phrase) = true →
      rawAnchorScore tokenize weak_phrases target_keywords target_title c =
        rawAnchorScore tokenize (weak_phrases.filter (fun w => !(w == pyLower c.phrase)))
          target_keywords target_title c - 0.5) := by
  refine ⟨?_, ?_, ?_, ?_⟩
  · intro c hc
    have hm : c ∈ List.mergeSort (dedupCandidates candidates []) scoreDescLe :=
      (List.take_sublist 10 _).mem hc
    exact (mem_dedupCandidates (List.mem_mergeSort.mp hm)).2
  · exact List.length_take_le _ _
  · have hs : (List.mergeSort (dedupCandidates candidates []) scoreDescLe).Pairwise
        (fun a b => scoreDescLe a b = true) :=
      List.sorted_mergeSort scoreDescLe_trans scoreDescLe_total _
    have hpw := List.Pairwise.sublist (List.take_sublist 10 _) hs
    exact hpw.imp (fun h => by simpa [scoreDescLe] using h)
  · intro c hmem
    have hout : (weak_phrases.filter
        (fun w => !(w == pyLower c.phrase))).contains (pyLower c.phrase) = false := by
      simp only [List.contains, List.elem_eq_mem, decide_eq_false_iff_not]
      intro hcon
      have h2 := (List.mem_filter.mp hcon).2
      simp at h2
    simp only [rawAnchorScore, hmem, hout]
    norm_num
    ring

/-- C7 counterexample.  Feeding the reachable candidate `"Click here"`
(type `keyword`, produced by `_extract_keyword_phrases` from a text starting
with the sentence `"Click here"` and the target keyword `"click"`) through
scoring and filtering returns an anchor option whose whole phrase is the
configured weak phrase `"click here"`: weak phrases are penalised, not
excluded. -/
theorem weak_phrase_returned_counterexample :
    ∃ c ∈ _filter_anchor_candidates (_score_anchor_candidates (fun _ => [])
      [{ phrase := "Click here".data, type := "keyword".data, position := 0 }]
      ["click".data] []), weak_phrases.contains (pyLower c.phrase) = true := by
  have hscore : _score_anchor_candidates (fun _ => [])
      [{ phrase := "Click here".data, type := "keyword".data, position := 0 }]
      ["click".data] [] =
      [{ phrase := "Click here".data, type := "keyword".data,
         score := max 0 (min 1 (rawAnchorScore (fun _ => []) weak_phrases
           ["click".data] []
           { phrase := "Click here".data, type := "keyword".data, position := 0 })),
         position := 0 }] := by
    simp [_score_anchor_candidates]
  unfold _filter_anchor_candidates
  rw [hscore]
  rw [show dedupCandidates
      [{ phrase := "Click here".data, type := "keyword".data,
         score := max 0 (min 1 (rawAnchorScore (fun _ => []) weak_phrases
           ["click".data] []
           { phrase := "Click here".data, type := "keyword".data, position := 0 })),
         position := 0 }] [] =
      [{ phrase := "Click here".data, type := "keyword".data,
         score := max 0 (min 1 (rawAnchorScore (fun _ => []) weak_phrases
           ["click".data] []
           { phrase := "Click here".data, type := "keyword".data, position := 0 })),
         position := 0 }] from by
    unfold dedupCandidates
    rw [if_neg (by decide), dedupCandidates]]
  rw [List.mergeSort_singleton, List.take_succ_cons, List.take_nil]
  refine ⟨_, List.mem_singleton_self _, ?_⟩
  decide

/-! ## Theorems: analysis error handling (claim C8) -/

/-- C8.  `analyze_content` is total over its embedded failure modes: missing
or empty content/title/site_id returns the validation error payload
immediately; content below `min_content_length` likewise; an exception
raised inside the `try` block returns an error payload that preserves the
triggering message; every result has status `success` or `error`; and every
error result carries an empty suggestion list and an error message (no
partial success). -/
theorem analyze_content_error_handling (cfg : AnalyzerConfig)
    (deser : EmbBytes → Option Emb) (sim : Emb → Emb → ℚ)
    (embed : PyStr → Option Emb) (gen : PyStr → PyStr → List AnchorOption)
    (round3 round2 : ℚ → ℚ) (basic : PyStr → PyStr → BasicAnalysis)
    (kbE : Except PyStr DBState) (content title site_id : PyStr) (url : Option PyStr) :
    ((content.isEmpty || title.isEmpty || site_id.isEmpty) = true →
      analyze_content cfg deser sim embed gen round3 round2 basic kbE content title
          site_id url =
        _format_error_response "Missing required parameters (content, title, or site_id)".data) ∧
    ((content.isEmpty || title.isEmpty || site_id.isEmpty) = false →
      content.length < cfg.min_content_length →
      analyze_content cfg deser sim embed gen round3 round2 basic kbE content title
          site_id url =
        _format_error_response ("Content too short (minimum ".data ++
          (toString cfg.min_content_length).data ++ " characters)".data)) ∧
    (∀ e, (content.isEmpty || title.isEmpty || site_id.isEmpty) = false →
      ¬content.length < cfg.min_content_length → kbE = Except.error e →
      analyze_content cfg deser sim embed gen round3 round2 basic kbE content title
          site_id url =
        _format_error_response ("Internal server error during analysis: ".data ++ e)) ∧
    ((analyze_content cfg deser sim embed gen round3 round2 basic kbE content title
        site_id url).status = "success".data ∨
      (analyze_content cfg deser sim embed gen round3 round2 basic kbE content title
        site_id url).status = "error".data) ∧
    ((analyze_content cfg deser sim embed gen round3 round2 basic kbE content title
        site_id url).status = "error".data →
      (analyze_content cfg deser sim embed gen round3 round2 basic kbE content title
        site_id url).link_suggestions = [] ∧
      (analyze_content cfg deser sim embed gen round3 round2 basic kbE content title
        site_id url).error.isSome = true) := by
  refine ⟨?_, ?_, ?_, ?_, ?_⟩
  · intro h
    unfold analyze_content
    rw [if_pos h]
  · intro h hlen
    unfold analyze_content
    rw [if_neg (by simp [h]), if_pos hlen]
  · intro e h hlen hk
    unfold analyze_content
    rw [if_neg (by simp [h]), if_neg hlen, hk]
  · unfold analyze_content
    split_ifs
    · exact Or.inr rfl
    · exact Or.inr rfl
    · cases kbE with
      | error e => exact Or.inr rfl
      | ok kb => exact Or.inl rfl
  · intro herr
    unfold analyze_content at herr ⊢
    split_ifs at herr ⊢
    · exact ⟨rfl, rfl⟩
    · exact ⟨rfl, rfl⟩
    · cases kbE with
      | error e => exact ⟨rfl, rfl⟩
      | ok kb =>
        have hne : ¬("success".data = "error".data) := by decide
        exact absurd herr hne

/-! ## Theorems: suggestion caps, ordering and paragraph filtering (claims C3, C4) -/

theorem suggDescLe_trans (a b c : Suggestion) (h1 : suggDescLe a b = true)
    (h2 : suggDescLe b c = true) : suggDescLe a c = true := by
  simp only [suggDescLe, decide_eq_true_eq] at *
  rcases h1 with h1 | ⟨h1e, h1c⟩ <;> rcases h2 with h2 | ⟨h2e, h2c⟩
  · exact Or.inl (lt_trans h2 h1)
  · exact Or.inl (h2e.trans_lt h1)
  · exact Or.inl (h2.trans_eq h1e)
  · exact Or.inr ⟨h2e.trans h1e, le_trans h2c h1c⟩

theorem suggDescLe_total (a b : Suggestion) : (suggDescLe a b || suggDescLe b a) = true := by
  simp only [suggDescLe, Bool.or_eq_true, decide_eq_true_eq]
  rcases lt_trichotomy b.relevance a.relevance with h | h | h
  · exact Or.inl (Or.inl h)
  · rcases le_total b.anchor_confidence a.anchor_confidence with hc | hc
    · exact Or.inl (Or.inr ⟨h, hc⟩)
    · exact Or.inr (Or.inr ⟨h.symm, hc⟩)
  · exact Or.inr (Or.inl h)

theorem filter_append_single_le {acc : List Suggestion} {counts : Nat → Nat} {pi : Nat}
    (s : Suggestion) (hs : s.paragraph_index = pi)
    (h1 : ∀ i, ((acc.filter (fun x => x.paragraph_index = i)).length ≤ counts i)) :
    ∀ i, (((acc ++ [s]).filter (fun x => x.paragraph_index = i)).length ≤
      (fun j => if j = pi then counts j + 1 else counts j) i) := by
  intro i
  simp only
  rw [List.filter_append, List.length_append]
  by_cases hi : i = pi
  · subst hi
    rw [if_pos rfl]
    have hle := List.length_filter_le (fun x => decide (x.paragraph_index = i)) [s]
    have hb := h1 i
    simp only [List.length_singleton] at hle
    omega
  · rw [if_neg hi]
    have hne : ¬(pi = i) := fun h => hi h.symm
    have hz : (List.filter (fun x => decide (x.paragraph_index = i)) [s]).length = 0 := by
      simp [List.filter_cons, List.filter_nil, hs, hne]
    have hb := h1 i
    omega

/-- The inner target loop preserves the per-paragraph counter invariants: the
number of accumulated suggestions carrying each paragraph index is bounded by
that paragraph's counter, every counter is bounded by
`max_links_per_paragraph`, and every accumulated suggestion satisfies any
property `P` that holds of the old ones and of every suggestion carrying the
current paragraph index. -/
theorem processTargets_invariant (cfg : AnalyzerConfig)
    (gen : PyStr → PyStr → List AnchorOption) (round3 round2 : ℚ → ℚ)
    (para_idx : Nat) (paragraph : PyStr) (P : Suggestion → Prop)
    (hP : ∀ s : Suggestion, s.paragraph_index = para_idx → P s) :
    ∀ (targets : List SemResult) (counts : Nat → Nat) (acc : List Suggestion),
    (∀ i, ((acc.filter (fun s => s.paragraph_index = i)).length ≤ counts i)) →
    (∀ i, counts i ≤ cfg.max_links_per_paragraph) →
    (∀ s ∈ acc, P s) →
    (∀ i, (((processTargets cfg gen round3 round2 para_idx paragraph targets counts
        acc).2).filter (fun s => s.paragraph_index = i)).length ≤
      (processTargets cfg gen round3 round2 para_idx paragraph targets counts acc).1 i) ∧
    (∀ i, (processTargets cfg gen round3 round2 para_idx paragraph targets counts
        acc).1 i ≤ cfg.max_links_per_paragraph) ∧
    (∀ s ∈ (processTargets cfg gen round3 round2 para_idx paragraph targets counts
        acc).2, P s)
  | [], counts, acc, h1, h2, h3 => by
    simpa only [processTargets] using ⟨h1, h2, h3⟩
  | target :: rest, counts, acc, h1, h2, h3 => by
    simp only [processTargets]
    by_cases hfull : cfg.max_links_per_paragraph ≤ counts para_idx
    · rw [if_pos hfull]
      exact ⟨h1, h2, h3⟩
    · rw [if_neg hfull]
      cases hgen : gen paragraph target.title with
      | nil =>
        exact processTargets_invariant cfg gen round3 round2 para_idx paragraph P hP
          rest counts acc h1 h2 h3
      | cons o os =>
        dsimp only
        by_cases hconf : cfg.min_confidence ≤ (bestAnchor o os).confidence
        · rw [if_pos hconf]
          refine processTargets_invariant cfg gen round3 round2 para_idx paragraph P hP
            rest _ _ ?_ ?_ ?_
          · exact filter_append_single_le _ rfl h1
          · intro i
            show (if i = para_idx then counts i + 1 else counts i) ≤
              cfg.max_links_per_paragraph
            by_cases hi : i = para_idx
            · subst hi
              rw [if_pos rfl]
              have hb := h2 i
              omega
            · rw [if_neg hi]
              exact h2 i
          · intro s hs
            rcases List.mem_append.mp hs with hsl | hsr
            · exact h3 s hsl
            · have := List.mem_singleton.mp hsr
              subst this
              exact hP _ rfl
        · rw [if_neg hconf]
          exact processTargets_invariant cfg gen round3 round2 para_idx paragraph P hP
            rest counts acc h1 h2 h3

/-- The paragraph loop of `analyze_content` preserves the counter invariants
and any index-derived property of the accumulated suggestions. -/
theorem suggestion_foldl_invariant (cfg : AnalyzerConfig) (deser : EmbBytes → Option Emb)
    (sim : Emb → Emb → ℚ) (embed : PyStr → Option Emb)
    (gen : PyStr → PyStr → List AnchorOption) (round3 round2 : ℚ → ℚ)
    (kb : DBState) (url : Option PyStr) (P : Suggestion → Prop) :
    ∀ (L : List (Nat × PyStr)) (state : (Nat → Nat) × List Suggestion),
    (∀ pair ∈ L, ∀ s : Suggestion, s.paragraph_index = pair.1 → P s) →
    (∀ i, ((state.2.filter (fun s => s.paragraph_index = i)).length ≤ state.1 i)) →
    (∀ i, state.1 i ≤ cfg.max_links_per_paragraph) →
    (∀ s ∈ state.2, P s) →
    (∀ i, (((L.foldl (fun state pair =>
        let para_idx := pair.1
        let paragraph := pair.2
        if cfg.max_links_per_paragraph ≤ state.1 para_idx then state
        else
          match embed paragraph with
          | none => state
          | some paragraph_embedding =>
            let relevant_targets := find_related_content_semantic deser sim kb
              paragraph_embedding url 10 cfg.min_relevance
            if relevant_targets.isEmpty then state
            else processTargets cfg gen round3 round2 para_idx paragraph relevant_targets
              state.1 state.2) state).2).filter
        (fun s => s.paragraph_index = i)).length ≤
      (L.foldl (fun state pair =>
        let para_idx := pair.1
        let paragraph := pair.2
        if cfg.max_links_per_paragraph ≤ state.1 para_idx then state
        else
          match embed paragraph with
          | none => state
          | some paragraph_embedding =>
            let relevant_targets := find_related_content_semantic deser sim kb
              paragraph_embedding url 10 cfg.min_relevance
            if relevant_targets.isEmpty then state
            else processTargets cfg gen round3 round2 para_idx paragraph relevant_targets
              state.1 state.2) state).1 i) ∧
    (∀ i, (L.foldl (fun state pair =>
        let para_idx := pair.1
        let paragraph := pair.2
        if cfg.max_links_per_paragraph ≤ state.1 para_idx then state
        else
          match embed paragraph with
          | none => state
          | some paragraph_embedding =>
            let relevant_targets := find_related_content_semantic deser sim kb
              paragraph_embedding url 10 cfg.min_relevance
            if relevant_targets.isEmpty then state
            else processTargets cfg gen round3 round2 para_idx paragraph relevant_targets
              state.1 state.2) state).1 i ≤ cfg.max_links_per_paragraph) ∧
    (∀ s ∈ (L.foldl (fun state pair =>
        let para_idx := pair.1
        let paragraph := pair.2
        if cfg.max_links_per_paragraph ≤ state.1 para_idx then state
        else
          match embed paragraph with
          | none => state
          | some paragraph_embedding =>
            let relevant_targets := find_related_content_semantic deser sim kb
              paragraph_embedding url 10 cfg.min_relevance
            if relevant_targets.isEmpty then state
            else processTargets cfg gen round3 round2 para_idx paragraph relevant_targets
              state.1 state.2) state).2, P s)
  | [], state, _, h1, h2, h3 => by
    simpa only [List.foldl_nil] using ⟨h1, h2, h3⟩
  | pair :: rest, state, hL, h1, h2, h3 => by
    rw [List.foldl_cons]
    refine suggestion_foldl_invariant cfg deser sim embed gen round3 round2 kb url P
      rest _ (fun q hq => hL q (List.mem_cons_of_mem pair hq)) ?_ ?_ ?_
    all_goals (
      simp only
      by_cases hfull : cfg.max_links_per_paragraph ≤ state.1 pair.1
      · rw [if_pos hfull]
        first
        | exact h1
        | exact h2
        | exact h3
      · rw [if_neg hfull]
        cases hembed : embed pair.2 with
        | none =>
          first
          | exact h1
          | exact h2
          | exact h3
        | some pe =>
          simp only
          by_cases hrel : (find_related_content_semantic deser sim kb pe url 10
              cfg.min_relevance).isEmpty = true
          · rw [if_pos hrel]
            first
            | exact h1
            | exact h2
            | exact h3
          · rw [if_neg hrel]
            have hinv := processTargets_invariant cfg gen round3 round2 pair.1 pair.2 P
              (hL pair (List.mem_cons_self pair rest))
              (find_related_content_semantic deser sim kb pe url 10 cfg.min_relevance)
              state.1 state.2 h1 h2 h3
            first
            | exact hinv.1
            | exact hinv.2.1
            | exact hinv.2.2)

/-- C3.  In every analysis result (in particular every successful one), at
most `max_links_per_paragraph` suggestions carry any given paragraph index,
at most `max_suggestions` suggestions are returned in total, and the final
list is sorted by `(relevance, anchor_confidence)` descending. -/
theorem analyze_content_caps_and_order (cfg : AnalyzerConfig)
    (deser : EmbBytes → Option Emb) (sim : Emb → Emb → ℚ)
    (embed : PyStr → Option Emb) (gen : PyStr → PyStr → List AnchorOption)
    (round3 round2 : ℚ → ℚ) (basic : PyStr → PyStr → BasicAnalysis)
    (kbE : Except PyStr DBState) (content title site_id : PyStr) (url : Option PyStr) :
    (analyze_content cfg deser sim embed gen round3 round2 basic kbE content title
      site_id url).link_suggestions.length ≤ cfg.max_suggestions ∧
    (∀ i, ((analyze_content cfg deser sim embed gen round3 round2 basic kbE content
      title site_id url).link_suggestions.filter
        (fun s => s.paragraph_index = i)).length ≤ cfg.max_links_per_paragraph) ∧
    (analyze_content cfg deser sim embed gen round3 round2 basic kbE content title
      site_id url).link_suggestions.Pairwise (fun a b =>
        b.relevance < a.relevance ∨
        (b.relevance = a.relevance ∧ b.anchor_confidence ≤ a.anchor_confidence)) := by
  unfold analyze_content
  split_ifs
  · simp [_format_error_response]
  · simp [_format_error_response]
  · cases kbE with
    | error e => simp [_format_error_response]
    | ok kb =>
      simp only [_format_success_response]
      have hloop := suggestion_foldl_invariant cfg deser sim embed gen round3 round2 kb
        url (fun _ => True) (_split_into_paragraphs cfg content).enum ((fun _ => 0), [])
        (fun _ _ _ _ => trivial) (by intro i; simp) (by intro i; simp)
        (by intro x hx; cases hx)
      have hcap : ∀ i, ((suggestionLoop cfg deser sim embed gen round3 round2 kb url
          (_split_into_paragraphs cfg content)).filter
            (fun s => decide (s.paragraph_index = i))).length ≤
          cfg.max_links_per_paragraph := by
        intro i
        unfold suggestionLoop
        exact le_trans (hloop.1 i) (hloop.2.1 i)
      refine ⟨List.length_take_le _ _, ?_, ?_⟩
      · intro i
        have hsub := ((List.take_sublist cfg.max_suggestions
          ((suggestionLoop cfg deser sim embed gen round3 round2 kb url
            (_split_into_paragraphs cfg content)).mergeSort suggDescLe)).filter
              (fun s => decide (s.paragraph_index = i))).length_le
        have hperm := (((suggestionLoop cfg deser sim embed gen round3 round2 kb url
          (_split_into_paragraphs cfg content)).mergeSort suggDescLe).filter
            (fun s => decide (s.paragraph_index = i))).length
        have hpermeq := ((List.mergeSort_perm (suggestionLoop cfg deser sim embed gen
          round3 round2 kb url (_split_into_paragraphs cfg content)) suggDescLe).filter
            (fun s => decide (s.paragraph_index = i))).length_eq
        have := hcap i
        omega
      · have hs : ((suggestionLoop cfg deser sim embed gen round3 round2 kb url
            (_split_into_paragraphs cfg content)).mergeSort suggDescLe).Pairwise
            (fun a b => suggDescLe a b = true) :=
          List.sorted_mergeSort suggDescLe_trans suggDescLe_total _
        have hpw := List.Pairwise.sublist (List.take_sublist cfg.max_suggestions _) hs
        exact hpw.imp (fun h => by simpa [suggDescLe] using h)

/-- C4.  Paragraphs shorter than `min_paragraph_length` are discarded during
segmentation, and every returned suggestion's `paragraph_index` refers to a
segmented paragraph, which therefore has length at least
`min_paragraph_length` — no suggestion is ever produced from a short
paragraph. -/
theorem analyze_content_min_paragraph_length (cfg : AnalyzerConfig)
    (deser : EmbBytes → Option Emb) (sim : Emb → Emb → ℚ)
    (embed : PyStr → Option Emb) (gen : PyStr → PyStr → List AnchorOption)
    (round3 round2 : ℚ → ℚ) (basic : PyStr → PyStr → BasicAnalysis)
    (kbE : Except PyStr DBState) (content title site_id : PyStr) (url : Option PyStr) :
    (∀ p ∈ _split_into_paragraphs cfg content, cfg.min_paragraph_length ≤ p.length) ∧
    (∀ s ∈ (analyze_content cfg deser sim embed gen round3 round2 basic kbE content
        title site_id url).link_suggestions,
      ∃ p, (_split_into_paragraphs cfg content)[s.paragraph_index]? = some p ∧
        cfg.min_paragraph_length ≤ p.length) := by
  have hseg : ∀ p ∈ _split_into_paragraphs cfg content,
      cfg.min_paragraph_length ≤ p.length := by
    intro p hp
    unfold _split_into_paragraphs at hp
    split_ifs at hp
    · cases hp
    all_goals (
      obtain ⟨q, hq, rfl⟩ := List.mem_map.mp hp
      have hc := (List.mem_filter.mp hq).2
      simpa using hc)
  refine ⟨hseg, ?_⟩
  intro s hs
  unfold analyze_content at hs
  split_ifs at hs
  · simp [_format_error_response] at hs
  · simp [_format_error_response] at hs
  · cases kbE with
    | error e => simp [_format_error_response] at hs
    | ok kb =>
      simp only [_format_success_response] at hs
      have hmem : s ∈ suggestionLoop cfg deser sim embed gen round3 round2 kb url
          (_split_into_paragraphs cfg content) :=
        List.mem_mergeSort.mp ((List.take_sublist _ _).mem hs)
      have hL : ∀ pair ∈ (_split_into_paragraphs cfg content).enum,
          ∀ t : Suggestion, t.paragraph_index = pair.1 →
          ∃ p, (_split_into_paragraphs cfg content)[t.paragraph_index]? = some p := by
        intro pair hpair t ht
        refine ⟨pair.2, ?_⟩
        rw [ht]
        exact List.mem_enum_iff_getElem?.mp hpair
      have hloop := suggestion_foldl_invariant cfg deser sim embed gen round3 round2 kb
        url (fun t => ∃ p, (_split_into_paragraphs cfg content)[t.paragraph_index]? =
          some p)
        (_split_into_paragraphs cfg content).enum ((fun _ => 0), []) hL
        (by intro i; simp) (by intro i; simp) (by intro x hx; cases hx)
      unfold suggestionLoop at hmem
      obtain ⟨p, hp⟩ := hloop.2.2 s hmem
      exact ⟨p, hp, hseg p (List.getElem?_mem hp)⟩

/-! ## Theorems: upsert idempotence and the embedding frame (claims C2, C10) -/

theorem check_cleanup_of_le (cfg : DBConfig) (st : DBState)
    (h : (st.content.length : Int) ≤ thresholdCount cfg) :
    _check_cleanup_needed cfg st = st := by
  unfold _check_cleanup_needed
  rw [if_neg (not_lt.mpr h)]

theorem find?_append_left_none {α : Type} (p : α → Bool) :
    ∀ {l₁ : List α} (l₂ : List α), l₁.find? p = none → (l₁ ++ l₂).find? p = l₂.find? p
  | [], l₂, _ => rfl
  | a :: l₁, l₂, h => by
    have hpa : ¬p a = true := by
      intro hpa
      rw [List.find?_cons_of_pos _ hpa] at h
      cases h
    rw [List.find?_cons_of_neg _ hpa] at h
    rw [List.cons_append, List.find?_cons_of_neg _ hpa]
    exact find?_append_left_none p l₂ h

theorem find?_map_comm {α : Type} (f : α → α) (p : α → Bool) (h : ∀ a, p (f a) = p a) :
    ∀ l : List α, (l.map f).find? p = (l.find? p).map f
  | [] => rfl
  | a :: l => by
    by_cases hp : p a = true
    · rw [List.map_cons, List.find?_cons_of_pos _ ((h a).trans hp),
        List.find?_cons_of_pos _ hp]
      rfl
    · have hfa : ¬p (f a) = true := by rw [h a]; exact hp
      rw [List.map_cons, List.find?_cons_of_neg _ hfa, List.find?_cons_of_neg _ hp]
      exact find?_map_comm f p h l

theorem entityRowsOf_content_id (cd : ContentData) :
    ∀ r ∈ entityRowsOf cd, r.content_id = cd.id := by
  intro r hr
  unfold entityRowsOf at hr
  rcases hE : cd.entities with _ | es
  · rw [hE] at hr
    cases hr
  · rw [hE] at hr
    simp only at hr
    obtain ⟨pair, _, hr2⟩ := List.mem_flatMap.mp hr
    obtain ⟨v, _, rfl⟩ := List.mem_map.mp hr2
    rfl

theorem topicRowsOf_content_id (cd : ContentData) :
    ∀ r ∈ topicRowsOf cd, r.content_id = cd.id := by
  intro r hr
  unfold topicRowsOf at hr
  rcases hE : cd.topics with _ | ts
  · rw [hE] at hr
    cases hr
  · rw [hE] at hr
    simp only at hr
    obtain ⟨pair, _, hr2⟩ := List.mem_flatMap.mp hr
    obtain ⟨v, _, rfl⟩ := List.mem_map.mp hr2
    rfl

theorem filter_entityRows_self (cd : ContentData) :
    (entityRowsOf cd).filter (fun r => r.content_id == cd.id) = entityRowsOf cd :=
  List.filter_eq_self.mpr (fun r hr => by
    simp [entityRowsOf_content_id cd r hr])

theorem filter_topicRows_self (cd : ContentData) :
    (topicRowsOf cd).filter (fun r => r.content_id == cd.id) = topicRowsOf cd :=
  List.filter_eq_self.mpr (fun r hr => by
    simp [topicRowsOf_content_id cd r hr])

theorem filter_after_delete_entities (st : DBState) (cd : ContentData) :
    ((insertChildren (deleteChildren st cd.id) cd).entities).filter
      (fun r => r.content_id == cd.id) = entityRowsOf cd := by
  simp only [insertChildren, deleteChildren, List.filter_append, List.filter_filter]
  have hfalse : (fun r : EntityRow => (r.content_id == cd.id) && !(r.content_id == cd.id)) =
      fun _ => false := funext fun r => Bool.and_not_self _
  rw [hfalse, List.filter_false, List.nil_append, filter_entityRows_self]

theorem filter_after_delete_topics (st : DBState) (cd : ContentData) :
    ((insertChildren (deleteChildren st cd.id) cd).topics).filter
      (fun r => r.content_id == cd.id) = topicRowsOf cd := by
  simp only [insertChildren, deleteChildren, List.filter_append, List.filter_filter]
  have hfalse : (fun r : TopicRow => (r.content_id == cd.id) && !(r.content_id == cd.id)) =
      fun _ => false := funext fun r => Bool.and_not_self _
  rw [hfalse, List.filter_false, List.nil_append, filter_topicRows_self]

theorem find?_update_row (cid : PyStr) (u : ContentRow)
    (hu : (u.content_id == cid) = true) (l : List ContentRow) :
    (l.map (fun r => if r.content_id == cid then u else r)).find?
      (fun r => r.content_id == cid) =
    (l.find? (fun r => r.content_id == cid)).map
      (fun r => if r.content_id == cid then u else r) :=
  find?_map_comm _ _ (fun a => by
    by_cases ha : (a.content_id == cid) = true
    · rw [if_pos ha, hu, ha]
    · rw [if_neg ha]) l

/-- What one `add_content` call guarantees, provided the store is at least
one row below the cleanup trigger (so eviction stays inactive) and the store
holds no orphan child rows for the id when the content row is absent: the
call returns `true`, the store stays below the trigger, the row is present
with the freshly computed hash (and an embedding whenever one was supplied),
and — whenever entities or topics were supplied — the id's child rows are
exactly the supplied ones. -/
theorem add_content_post (hashFn : HashInput → PyStr) (cfg : DBConfig) (now : Nat)
    (st : DBState) (cd : ContentData) (eb : Option EmbBytes)
    (hthr : (st.content.length : Int) + 1 ≤ thresholdCount cfg)
    (horph : st.content.find? (fun r => r.content_id == cd.id) = none →
      st.entities.filter (fun r => r.content_id == cd.id) = [] ∧
      st.topics.filter (fun r => r.content_id == cd.id) = []) :
    (add_content hashFn cfg now st cd eb).2 = true ∧
    (((add_content hashFn cfg now st cd eb).1.content.length : Int) ≤ thresholdCount cfg) ∧
    (∃ row, (add_content hashFn cfg now st cd eb).1.content.find?
        (fun r => r.content_id == cd.id) = some row ∧
      row.hash = hashFn (hashInputOf cd) ∧
      (eb.isSome = true → row.embedding.isSome = true)) ∧
    ((cd.entities.isSome || cd.topics.isSome) = true →
      (add_content hashFn cfg now st cd eb).1.entities.filter
        (fun r => r.content_id == cd.id) = entityRowsOf cd ∧
      (add_content hashFn cfg now st cd eb).1.topics.filter
        (fun r => r.content_id == cd.id) = topicRowsOf cd) := by
  simp only [add_content]
  cases hfind : st.content.find? (fun r => r.content_id == cd.id) with
  | none =>
    dsimp only
    have hclean := check_cleanup_of_le cfg
      (insertChildren
        { st with content := st.content ++
            [{ content_id := cd.id, title := cd.title, url := cd.url,
               hash := hashFn (hashInputOf cd), embedding := eb,
               created_at := now, updated_at := now }] } cd)
      (by
        simp only [insertChildren, List.length_append, List.length_singleton]
        push_cast
        omega)
    rw [hclean]
    refine ⟨rfl, ?_, ?_, ?_⟩
    · simp only [insertChildren, List.length_append, List.length_singleton]
      push_cast
      omega
    · refine ⟨({ content_id := cd.id, title := cd.title, url := cd.url,
                 hash := hashFn (hashInputOf cd), embedding := eb,
                 created_at := now, updated_at := now } : ContentRow), ?_, rfl, fun h => h⟩
      show (st.content ++ _).find? _ = _
      rw [find?_append_left_none _ _ hfind]
      exact List.find?_cons_of_pos _ (by simp)
    · intro _
      constructor
      · show (st.entities ++ entityRowsOf cd).filter _ = _
        rw [List.filter_append, (horph hfind).1, filter_entityRows_self, List.nil_append]
      · show (st.topics ++ topicRowsOf cd).filter _ = _
        rw [List.filter_append, (horph hfind).2, filter_topicRows_self, List.nil_append]
  | some existing =>
    dsimp only
    have hpex : (existing.content_id == cd.id) = true := by
      have h := List.find?_some hfind
      exact h
    by_cases hneed : (decide (¬existing.hash = hashFn (hashInputOf cd)) ||
        (eb.isSome && existing.embedding.isNone)) = true
    · rw [if_pos hneed]
      have hclean := check_cleanup_of_le cfg
        (insertChildren (deleteChildren
          { st with content := st.content.map (fun r =>
              if r.content_id == cd.id then
                { existing with
                  title := cd.title, url := cd.url, hash := hashFn (hashInputOf cd),
                  embedding := if eb.isSome = true then eb else existing.embedding,
                  updated_at := now }
              else r) } cd.id) cd)
        (by
          simp only [insertChildren, deleteChildren, List.length_map]
          omega)
      rw [hclean]
      refine ⟨rfl, ?_, ?_, ?_⟩
      · simp only [insertChildren, deleteChildren, List.length_map]
        omega
      · refine ⟨({ existing with
                    title := cd.title, url := cd.url, hash := hashFn (hashInputOf cd),
                    embedding := if eb.isSome = true then eb else existing.embedding,
                    updated_at := now } : ContentRow), ?_, rfl, ?_⟩
        · show (st.content.map _).find? _ = _
          rw [find?_update_row cd.id
            ({ existing with
                title := cd.title, url := cd.url, hash := hashFn (hashInputOf cd),
                embedding := if eb.isSome = true then eb else existing.embedding,
                updated_at := now } : ContentRow) hpex st.content, hfind]
          simp only [Option.map_some']
          rw [if_pos hpex]
        · intro h
          show (if eb.isSome = true then eb else existing.embedding).isSome = true
          rw [if_pos h]
          exact h
      · intro _
        exact ⟨filter_after_delete_entities _ cd, filter_after_delete_topics _ cd⟩
    · rw [if_neg hneed]
      simp only [Bool.or_eq_true, Bool.and_eq_true, decide_eq_true_eq, not_or,
        not_and, not_not] at hneed
      obtain ⟨hhash, hrest⟩ := hneed
      have hembk : eb.isSome = true → existing.embedding.isSome = true := by
        intro h
        have h2 := hrest h
        rcases hO : existing.embedding with _ | b
        · simp at h2
          exact absurd hO h2
        · rfl
      by_cases hkeys : (cd.entities.isSome || cd.topics.isSome) = true
      · rw [if_pos hkeys]
        have hclean := check_cleanup_of_le cfg
          (insertChildren (deleteChildren st cd.id) cd)
          (by
            simp only [insertChildren, deleteChildren]
            omega)
        rw [hclean]
        refine ⟨rfl, ?_, ?_, ?_⟩
        · simp only [insertChildren, deleteChildren]
          omega
        · exact ⟨existing, hfind, hhash, hembk⟩
        · intro _
          exact ⟨filter_after_delete_entities _ cd, filter_after_delete_topics _ cd⟩
      · rw [if_neg hkeys]
        refine ⟨rfl, ?_, ⟨existing, hfind, hhash, hembk⟩, fun hk => absurd hk hkeys⟩
        show (st.content.length : Int) ≤ thresholdCount cfg
        omega

/-- C2.  Upsert is idempotent: under the normal operating regime (the store
at least one row below the cleanup trigger, and no orphan child rows for an
absent id), calling `add_content` twice with identical input leaves the
content table — and hence the stored content hash — exactly as after a
single call, and the id's entity/topic child rows are identical after the
second call (nothing is duplicated): the second call finds the recomputed
hash equal to the stored one with an embedding already stored, skips the
metadata/embedding write, and only deletes and re-inserts the same children
when they are supplied. -/
theorem add_content_idempotent (hashFn : HashInput → PyStr) (cfg : DBConfig)
    (now₁ now₂ : Nat) (st : DBState) (cd : ContentData) (eb : Option EmbBytes)
    (hthr : (st.content.length : Int) + 1 ≤ thresholdCount cfg)
    (horph : st.content.find? (fun r => r.content_id == cd.id) = none →
      st.entities.filter (fun r => r.content_id == cd.id) = [] ∧
      st.topics.filter (fun r => r.content_id == cd.id) = []) :
    (add_content hashFn cfg now₂ (add_content hashFn cfg now₁ st cd eb).1 cd eb).2 = true ∧
    (add_content hashFn cfg now₂ (add_content hashFn cfg now₁ st cd eb).1 cd
        eb).1.content = (add_content hashFn cfg now₁ st cd eb).1.content ∧
    ((add_content hashFn cfg now₂ (add_content hashFn cfg now₁ st cd eb).1 cd
        eb).1.entities.filter (fun r => r.content_id == cd.id)) =
      ((add_content hashFn cfg now₁ st cd eb).1.entities.filter
        (fun r => r.content_id == cd.id)) ∧
    ((add_content hashFn cfg now₂ (add_content hashFn cfg now₁ st cd eb).1 cd
        eb).1.topics.filter (fun r => r.content_id == cd.id)) =
      ((add_content hashFn cfg now₁ st cd eb).1.topics.filter
        (fun r => r.content_id == cd.id)) := by
  obtain ⟨b1, hlen1, ⟨row, hfind1, hhash1, hemb1⟩, hkeys1⟩ :=
    add_content_post hashFn cfg now₁ st cd eb hthr horph
  set st1 := (add_content hashFn cfg now₁ st cd eb).1 with hst1
  have hne : (decide (¬row.hash = hashFn (hashInputOf cd)) ||
      (eb.isSome && row.embedding.isNone)) = false := by
    have hd : decide (¬row.hash = hashFn (hashInputOf cd)) = false := by simp [hhash1]
    rcases heb : eb with _ | b
    · simp [hd, heb]
    · have hs := hemb1 (by rw [heb]; rfl)
      rcases hOO : row.embedding with _ | c
      · rw [hOO] at hs
        simp at hs
      · simp [hd, hOO]
  simp only [add_content]
  rw [hfind1]
  dsimp only
  rw [if_neg (by rw [hne]; simp)]
  by_cases hkeys : (cd.entities.isSome || cd.topics.isSome) = true
  · rw [if_pos hkeys]
    rw [check_cleanup_of_le cfg _ (by simpa only [insertChildren, deleteChildren] using hlen1)]
    refine ⟨rfl, rfl, ?_, ?_⟩
    · rw [filter_after_delete_entities, (hkeys1 hkeys).1]
    · rw [filter_after_delete_topics, (hkeys1 hkeys).2]
  · rw [if_neg hkeys]
    exact ⟨rfl, rfl, rfl, rfl⟩

/-- Witness for C2: a fresh store, a record with entities, an embedding; the
second identical call leaves the content table of the first call's result
unchanged. -/
theorem add_content_idempotent_witness :
    (add_content (fun _ => "h".data)
      { max_entries := 10, cleanup_threshold := 1, embedding_text_field := "title".data } 1
      (add_content (fun _ => "h".data)
        { max_entries := 10, cleanup_threshold := 1, embedding_text_field := "title".data } 0
        { content := [], entities := [], topics := [] }
        { id := "a".data, title := "t".data, url := "u".data, content := "c".data,
          entities := some [("brand".data, [("Gucci".data, 1)])], topics := none }
        (some [1])).1
      { id := "a".data, title := "t".data, url := "u".data, content := "c".data,
        entities := some [("brand".data, [("Gucci".data, 1)])], topics := none }
      (some [1])).1.content =
    (add_content (fun _ => "h".data)
      { max_entries := 10, cleanup_threshold := 1, embedding_text_field := "title".data } 0
      { content := [], entities := [], topics := [] }
      { id := "a".data, title := "t".data, url := "u".data, content := "c".data,
        entities := some [("brand".data, [("Gucci".data, 1)])], topics := none }
      (some [1])).1.content := by
  have hth : thresholdCount
      { max_entries := 10, cleanup_threshold := 1, embedding_text_field := "title".data } =
      10 := by
    norm_num [thresholdCount, pyInt]
  exact (add_content_idempotent (fun _ => "h".data)
    { max_entries := 10, cleanup_threshold := 1, embedding_text_field := "title".data } 0 1
    { content := [], entities := [], topics := [] }
    { id := "a".data, title := "t".data, url := "u".data, content := "c".data,
      entities := some [("brand".data, [("Gucci".data, 1)])], topics := none }
    (some [1])
    (by rw [hth]; decide)
    (fun _ => ⟨rfl, rfl⟩)).2.1

/-- C10.  For an existing record whose recomputed content hash equals the
stored hash and whose stored embedding is non-NULL, `add_content` leaves the
content table — in particular the stored embedding bytes — unchanged,
whatever embedding the call supplies: the embedding column is only ever
written on first insert, when the hash changes, or when the stored embedding
was missing. -/
theorem add_content_embedding_frame (hashFn : HashInput → PyStr) (cfg : DBConfig)
    (now : Nat) (st : DBState) (cd : ContentData) (eb : Option EmbBytes)
    (row : ContentRow)
    (hrow : st.content.find? (fun r => r.content_id == cd.id) = some row)
    (hhash : row.hash = hashFn (hashInputOf cd))
    (hemb : row.embedding.isSome = true)
    (hthr : (st.content.length : Int) ≤ thresholdCount cfg) :
    (add_content hashFn cfg now st cd eb).1.content = st.content := by
  have hne : (decide (¬row.hash = hashFn (hashInputOf cd)) ||
      (eb.isSome && row.embedding.isNone)) = false := by
    have hd : decide (¬row.hash = hashFn (hashInputOf cd)) = false := by simp [hhash]
    rcases heb : eb with _ | b
    · simp [hd, heb]
    · rcases hOO : row.embedding with _ | c
      · rw [hOO] at hemb
        simp at hemb
      · simp [hd, hOO]
  simp only [add_content]
  rw [hrow]
  dsimp only
  rw [if_neg (by rw [hne]; simp)]
  by_cases hkeys : (cd.entities.isSome || cd.topics.isSome) = true
  · rw [if_pos hkeys]
    rw [check_cleanup_of_le cfg _ (by simpa only [insertChildren, deleteChildren] using hthr)]
    rfl
  · rw [if_neg hkeys]

/-- Witness for C10: a store holding the record with matching hash and a
stored embedding `[1]`; a call supplying embedding `[9]` leaves the content
table unchanged. -/
theorem add_content_embedding_frame_witness :
    (add_content (fun _ => "h".data)
      { max_entries := 10, cleanup_threshold := 1, embedding_text_field := "title".data } 5
      { content := [{ content_id := "a".data, title := "t".data, url := "u".data,
                      hash := "h".data, embedding := some [1], created_at := 0,
                      updated_at := 0 }],
        entities := [], topics := [] }
      { id := "a".data, title := "t2".data, url := "u2".data, content := "c".data,
        entities := some [("brand".data, [("Prada".data, 1)])], topics := none }
      (some [9])).1.content =
    [{ content_id := "a".data, title := "t".data, url := "u".data, hash := "h".data,
       embedding := some [1], created_at := 0, updated_at := 0 }] := by
  have hth : thresholdCount
      { max_entries := 10, cleanup_threshold := 1, embedding_text_field := "title".data } =
      10 := by
    norm_num [thresholdCount, pyInt]
  exact add_content_embedding_frame (fun _ => "h".data)
    { max_entries := 10, cleanup_threshold := 1, embedding_text_field := "title".data } 5
    { content := [{ content_id := "a".data, title := "t".data, url := "u".data,
                    hash := "h".data, embedding := some [1], created_at := 0,
                    updated_at := 0 }],
      entities := [], topics := [] }
    { id := "a".data, title := "t2".data, url := "u2".data, content := "c".data,
      entities := some [("brand".data, [("Prada".data, 1)])], topics := none }
    (some [9])
    { content_id := "a".data, title := "t".data, url := "u".data, hash := "h".data,
      embedding := some [1], created_at := 0, updated_at := 0 }
    (by decide) rfl rfl (by rw [hth]; decide)

/-! ## Theorems: knowledge-building gate in bulk processing (claim C9) -/

/-- C9.  For a valid batch item, `_process_single_item` always upserts the
item into the knowledge store; when `knowledge_building_mode` is on, or when
the store's content count (as the code reads it, after the upsert) is below
`initial_db_size`, the result's `link_suggestions` is empty and the outcome
does not depend on the suggestion-generation machinery at all; suggestion
generation contributes to the result only when the mode is off and the count
has reached `initial_db_size`. -/
theorem process_single_item_kb_gate (hashFn : HashInput → PyStr) (dbcfg : DBConfig)
    (acfg : AnalyzerConfig) (bcfg : BulkConfig) (now : Nat)
    (embedKB : PyStr → Option EmbBytes) (basic : PyStr → PyStr → BasicAnalysis)
    (deser : EmbBytes → Option Emb) (sim : Emb → Emb → ℚ)
    (embed : PyStr → Option Emb) (gen : PyStr → PyStr → List AnchorOption)
    (round3 round2 : ℚ → ℚ) (kbE : Except PyStr DBState)
    (kb_mode : Bool) (st : DBState) (item : BulkItem) (site_id : PyStr)
    (hc : item.content.isEmpty = false) (ht : item.title.isEmpty = false)
    (hb : (basic item.content item.title).error = none) :
    ((_process_single_item hashFn dbcfg acfg bcfg now embedKB basic deser sim embed gen
        round3 round2 kbE kb_mode st item site_id).2 =
      (add_content hashFn dbcfg now st
        (knowledgeDataOf item (basic item.content item.title))
        (if (!(embeddingSourceText dbcfg item).isEmpty) = true then
          embedKB (embeddingSourceText dbcfg item) else none)).1) ∧
    ((_process_single_item hashFn dbcfg acfg bcfg now embedKB basic deser sim embed gen
        round3 round2 kbE kb_mode st item site_id).1.status = "success".data) ∧
    (kb_mode = true →
      (_process_single_item hashFn dbcfg acfg bcfg now embedKB basic deser sim embed gen
        round3 round2 kbE kb_mode st item site_id).1.link_suggestions = []) ∧
    (kb_mode = false →
      ((_process_single_item hashFn dbcfg acfg bcfg now embedKB basic deser sim embed gen
          round3 round2 kbE kb_mode st item site_id).2.content.length <
        bcfg.initial_db_size) →
      (_process_single_item hashFn dbcfg acfg bcfg now embedKB basic deser sim embed gen
        round3 round2 kbE kb_mode st item site_id).1.link_suggestions = []) ∧
    (kb_mode = false →
      (bcfg.initial_db_size ≤
        (_process_single_item hashFn dbcfg acfg bcfg now embedKB basic deser sim embed gen
          round3 round2 kbE kb_mode st item site_id).2.content.length) →
      (_process_single_item hashFn dbcfg acfg bcfg now embedKB basic deser sim embed gen
        round3 round2 kbE kb_mode st item site_id).1.link_suggestions =
        (if (analyze_content acfg deser sim embed gen round3 round2 basic kbE item.content
            item.title site_id (some item.url)).status == "success".data then
          (analyze_content acfg deser sim embed gen round3 round2 basic kbE item.content
            item.title site_id (some item.url)).link_suggestions
        else [])) ∧
    ((kb_mode = true ∨
        (_process_single_item hashFn dbcfg acfg bcfg now embedKB basic deser sim embed gen
          round3 round2 kbE kb_mode st item site_id).2.content.length <
          bcfg.initial_db_size) →
      ∀ (deser' : EmbBytes → Option Emb) (sim' : Emb → Emb → ℚ)
        (embed' : PyStr → Option Emb) (gen' : PyStr → PyStr → List AnchorOption)
        (round3' round2' : ℚ → ℚ) (kbE' : Except PyStr DBState),
        _process_single_item hashFn dbcfg acfg bcfg now embedKB basic deser' sim' embed'
          gen' round3' round2' kbE' kb_mode st item site_id =
        _process_single_item hashFn dbcfg acfg bcfg now embedKB basic deser sim embed gen
          round3 round2 kbE kb_mode st item site_id) := by
  have hup : ∀ (d : EmbBytes → Option Emb) (s : Emb → Emb → ℚ)
      (e : PyStr → Option Emb) (g : PyStr → PyStr → List AnchorOption)
      (r3 r2 : ℚ → ℚ) (kE : Except PyStr DBState),
      _process_single_item hashFn dbcfg acfg bcfg now embedKB basic d s e g r3 r2 kE
        kb_mode st item site_id =
      (let eb := if (!(embeddingSourceText dbcfg item).isEmpty) = true then
          embedKB (embeddingSourceText dbcfg item) else none
       let up := add_content hashFn dbcfg now st
         (knowledgeDataOf item (basic item.content item.title)) eb
       let generated : List Suggestion × Option PyStr :=
         if !kb_mode then
           if bcfg.initial_db_size ≤ up.1.content.length then
             let ar := analyze_content acfg d s e g r3 r2 basic kE item.content item.title
               site_id (some item.url)
             if ar.status == "success".data then (ar.link_suggestions, none)
             else ([], some (ar.error.getD
               "Suggestion generation failed with unknown error".data))
           else ([], none)
         else ([], none)
       ({ id := item.id, title := item.title, url := item.url, status := "success".data,
          error := none, link_suggestions := generated.1, in_knowledge_db := up.2,
          suggestion_error := generated.2 }, up.1)) := by
    intro d s e g r3 r2 kE
    simp only [_process_single_item]
    rw [if_neg (by simp [hc, ht]), hb]
  refine ⟨?_, ?_, ?_, ?_, ?_, ?_⟩
  · rw [hup deser sim embed gen round3 round2 kbE]
  · rw [hup deser sim embed gen round3 round2 kbE]
  · intro hkb
    rw [hup deser sim embed gen round3 round2 kbE]
    simp [hkb]
  · intro hkb hlt
    rw [hup deser sim embed gen round3 round2 kbE] at hlt ⊢
    dsimp only at hlt ⊢
    simp only [hkb, Bool.not_false, if_true]
    rw [if_neg (by omega)]
  · intro hkb hge
    rw [hup deser sim embed gen round3 round2 kbE] at hge ⊢
    dsimp only at hge ⊢
    simp only [hkb, Bool.not_false, if_true]
    rw [if_pos (by omega)]
    by_cases hsucc : ((analyze_content acfg deser sim embed gen round3 round2 basic kbE
        item.content item.title site_id (some item.url)).status == "success".data) = true
    · rw [if_pos hsucc, if_pos hsucc]
    · rw [if_neg hsucc, if_neg hsucc]
  · intro hgate deser' sim' embed' gen' round3' round2' kbE'
    rw [hup deser' sim' embed' gen' round3' round2' kbE',
      hup deser sim embed gen round3 round2 kbE]
    rcases hgate with hkb | hlt
    · simp [hkb]
    · rw [hup deser sim embed gen round3 round2 kbE] at hlt
      dsimp only at hlt ⊢
      cases hkm : kb_mode with
      | true => simp
      | false =>
        simp only [Bool.not_false, if_true]
        rw [if_neg (not_le.mpr hlt), if_neg (not_le.mpr hlt)]

/-- Witness for C9: a valid item processed in knowledge-building mode yields
an empty suggestion list. -/
theorem process_single_item_kb_gate_witness :
    (_process_single_item (fun _ => "h".data)
      { max_entries := 10, cleanup_threshold := 1, embedding_text_field := "title".data }
      {} {} 0 (fun _ => none)
      (fun _ _ => { fashion_entities := [], primary_topic := none, subtopics := [],
                    error := none })
      (fun _ => none) (fun _ _ => 0) (fun _ => none) (fun _ _ => [])
      (fun q => q) (fun q => q)
      (Except.ok { content := [], entities := [], topics := [] }) true
      { content := [], entities := [], topics := [] }
      { id := "i".data, title := "T".data, content := "C".data, url := "U".data }
      "s".data).1.link_suggestions = [] :=
  (process_single_item_kb_gate (fun _ => "h".data)
    { max_entries := 10, cleanup_threshold := 1, embedding_text_field := "title".data }
    {} {} 0 (fun _ => none)
    (fun _ _ => { fashion_entities := [], primary_topic := none, subtopics := [],
                  error := none })
    (fun _ => none) (fun _ _ => 0) (fun _ => none) (fun _ _ => [])
    (fun q => q) (fun q => q)
    (Except.ok { content := [], entities := [], topics := [] }) true
    { content := [], entities := [], topics := [] }
    { id := "i".data, title := "T".data, content := "C".data, url := "U".data }
    "s".data (by decide) (by decide) rfl).2.2.1 rfl

end WebAnalyzer
